import Mathlib

set_option maxHeartbeats 1000000

/-!
Verification development for the codex-cli account switcher.

The embedding covers the account-selection heuristic
(`codex_accounts_heuristic.choose_account` and the duplicate
`codex_accounts._default_choose_account`), the usage fetcher and its
remaining-percent normalization, the bulk-fetch cache validation (both the
fingerprint-checking variant in `codex_accounts_usage.py` and the legacy one in
`codex_accounts.py`), the heuristic loader, and the state-file save/load pair
including the shell quoting/splitting it relies on.
-/

namespace CodexSwitcher

/-! ### Candidate field values

Candidates arrive as Python dicts whose values can be anything.  `PyField`
models the cases that the two implementations distinguish:

* `missing`   — the key is absent (`c.get(k)` yields `None`);
* `intv n`    — a value `v` for which `int(v)` succeeds with result `n`
                (every falsy such value satisfies `int(v) = 0`);
* `badFalsy`  — a value for which `int(v)` raises and `bool(v)` is `False`
                (for example `None` or `""`);
* `badTruthy` — a value for which `int(v)` raises and `bool(v)` is `True`
                (for example the string `"abc"`).

The candidate's `name` is modelled by the string computed by
`str(c.get("name") or "")`, so a missing/falsy name is the empty string.
-/

inductive PyField where
  | missing
  | intv (n : Int)
  | badFalsy
  | badTruthy
deriving DecidableEq, Repr

structure Candidate where
  name : String
  weekly_remaining : PyField
  fiveh_remaining : PyField
  weekly_reset_at : PyField
  fiveh_reset_at : PyField
deriving DecidableEq, Repr

/-- `_to_int(value, default)` from `codex_accounts_heuristic.py`:
`int(value)` with the default returned on any exception (also covering the
missing-key case, where `int(None)` raises). -/
def toIntD : PyField → Int → Int
  | .intv n, _ => n
  | _, d => d

/-- The per-candidate data extracted by both heuristic loops:
name, weekly/5-hour remaining percentages, and the two reset timestamps. -/
structure Extracted where
  name : String
  weekly : Int
  fiveh : Int
  wreset : Int
  freset : Int
deriving DecidableEq, Repr

/-- Candidate decoding as performed by `choose_account` in
`codex_accounts_heuristic.py`: skip an empty name, convert each field
independently with `_to_int` (defaults: `-1` for the remaining values, `0` for
the reset values), and skip the candidate when either remaining value is
negative. -/
def extractH (c : Candidate) : Option Extracted :=
  if c.name = "" then none
  else
    let weekly := toIntD c.weekly_remaining (-1)
    let fiveh := toIntD c.fiveh_remaining (-1)
    if weekly < 0 ∨ fiveh < 0 then none
    else some ⟨c.name, weekly, fiveh, toIntD c.weekly_reset_at 0, toIntD c.fiveh_reset_at 0⟩

/-- `int(c.get("weekly_remaining", -1))` inside `_default_choose_account`'s
single try block: a missing key falls back to `-1`, a present value must be
`int`-convertible, otherwise the exception skips the whole candidate. -/
def convRemaining : PyField → Option Int
  | .missing => some (-1)
  | .intv n => some n
  | .badFalsy => none
  | .badTruthy => none

/-- `int(c.get("weekly_reset_at") or 0)` inside `_default_choose_account`'s
try block: a missing key or falsy value becomes `0`; a truthy value must be
`int`-convertible, otherwise the exception skips the whole candidate. -/
def convReset : PyField → Option Int
  | .missing => some 0
  | .intv n => some n
  | .badFalsy => some 0
  | .badTruthy => none

/-- Candidate decoding as performed by `_default_choose_account` in
`codex_accounts.py`: one try block converts all four fields, and any
conversion failure skips the candidate. -/
def extractD (c : Candidate) : Option Extracted :=
  if c.name = "" then none
  else
    match convRemaining c.weekly_remaining, convRemaining c.fiveh_remaining,
          convReset c.weekly_reset_at, convReset c.fiveh_reset_at with
    | some w, some f, some wr, some fr =>
      if w < 0 ∨ f < 0 then none else some ⟨c.name, w, f, wr, fr⟩
    | _, _, _, _ => none

/-- Weekly time-to-reset: `wreset - now_ts` clamped below by `1` when
`wreset > 0`, and the `unknown_reset_ttr_sec` constant otherwise. -/
def ttrW (now_ts unknown : Int) (e : Extracted) : Int :=
  if 0 < e.wreset then max 1 (e.wreset - now_ts) else unknown

/-- Five-hour time-to-reset, same shape as `ttrW`. -/
def ttrF (now_ts unknown : Int) (e : Extracted) : Int :=
  if 0 < e.freset then max 1 (e.freset - now_ts) else unknown

/-- The tie-break chain applied when the cross-multiplied weekly-urgency
ratios are equal: higher weekly remaining, then higher 5-hour remaining, then
earlier non-zero weekly reset (`if wreset and best_wreset: wreset < best_wreset`,
`elif wreset and not best_wreset`). -/
def tieBreak (a b : Extracted) : Prop :=
  b.weekly < a.weekly ∨ (a.weekly = b.weekly ∧
    (b.fiveh < a.fiveh ∨ (a.fiveh = b.fiveh ∧
      ((a.wreset ≠ 0 ∧ b.wreset ≠ 0 ∧ a.wreset < b.wreset) ∨
       (a.wreset ≠ 0 ∧ b.wreset = 0)))))

instance instDecTieBreak (a b : Extracted) : Decidable (tieBreak a b) := by
  unfold tieBreak; infer_instance

/-- `a` replaces `b` as the running best in the primary ranking:
`lhs > rhs` with `lhs = a.weekly * ttrW b` and `rhs = b.weekly * ttrW a`
(cross-multiplied ratio comparison), or equal ratios and `tieBreak`. -/
def beats (now_ts unknown : Int) (a b : Extracted) : Prop :=
  b.weekly * ttrW now_ts unknown a < a.weekly * ttrW now_ts unknown b ∨
  (a.weekly * ttrW now_ts unknown b = b.weekly * ttrW now_ts unknown a ∧ tieBreak a b)

instance instDecBeats (n u : Int) (a b : Extracted) : Decidable (beats n u a b) := by
  unfold beats; infer_instance

/-- `a` replaces `b` as the running fallback:
`fiveh > best_fiveh or (fiveh == best_fiveh and ttr_fiveh < best_ttr_fiveh)`. -/
def fbBeats (now_ts unknown : Int) (a b : Extracted) : Prop :=
  b.fiveh < a.fiveh ∨ (a.fiveh = b.fiveh ∧ ttrF now_ts unknown a < ttrF now_ts unknown b)

instance instDecFbBeats (n u : Int) (a b : Extracted) : Decidable (fbBeats n u a b) := by
  unfold fbBeats; infer_instance

/-- One step of the primary-best accumulator: candidates at or below the
5-hour usability threshold are excluded; otherwise the first survivor is
installed and later survivors replace it exactly when they beat it. -/
def bestUpd (now_ts pct unknown : Int) (b : Option Extracted) (e : Extracted) :
    Option Extracted :=
  if e.fiveh ≤ pct then b
  else
    match b with
    | none => some e
    | some bb => if beats now_ts unknown e bb then some e else some bb

/-- One step of the fallback accumulator (applied to every decoded candidate,
before the usability filter). -/
def fbUpd (now_ts unknown : Int) (fb : Option Extracted) (e : Extracted) :
    Option Extracted :=
  match fb with
  | none => some e
  | some f => if fbBeats now_ts unknown e f then some e else some f

/-- Loop body of `choose_account` (heuristic-module decoding). -/
def chooseStepH (now_ts pct unknown : Int) (st : Option Extracted × Option Extracted)
    (c : Candidate) : Option Extracted × Option Extracted :=
  match extractH c with
  | none => st
  | some e => (bestUpd now_ts pct unknown st.1 e, fbUpd now_ts unknown st.2 e)

/-- Loop body of `_default_choose_account` (single-try decoding). -/
def chooseStepD (now_ts pct unknown : Int) (st : Option Extracted × Option Extracted)
    (c : Candidate) : Option Extracted × Option Extracted :=
  match extractD c with
  | none => st
  | some e => (bestUpd now_ts pct unknown st.1 e, fbUpd now_ts unknown st.2 e)

/-- Final return: the best primary candidate's name, else the fallback's name,
else `none`. -/
def finalize : Option Extracted × Option Extracted → Option String
  | (some b, _) => some b.name
  | (none, some f) => some f.name
  | (none, none) => none

/-- `choose_account` from `codex_accounts_heuristic.py`. -/
def choose_account (cs : List Candidate)
    (now_ts fiveh_unusable_pct unknown_reset_ttr_sec : Int) : Option String :=
  finalize (cs.foldl (chooseStepH now_ts fiveh_unusable_pct unknown_reset_ttr_sec) (none, none))

/-- `_default_choose_account` from `codex_accounts.py`. -/
def _default_choose_account (cs : List Candidate)
    (now_ts fiveh_unusable_pct unknown_reset_ttr_sec : Int) : Option String :=
  finalize (cs.foldl (chooseStepD now_ts fiveh_unusable_pct unknown_reset_ttr_sec) (none, none))

/-- The candidates that pass decoding (non-empty name, usable data). -/
def rankable (cs : List Candidate) : List Extracted :=
  cs.filterMap extractH

/-- The candidates that additionally pass the 5-hour usability filter. -/
def survivors (cs : List Candidate) (pct : Int) : List Extracted :=
  (rankable cs).filter (fun e => decide (pct < e.fiveh))

/-! ### Order-theoretic facts about the two comparison relations -/

theorem ttrW_pos {u : Int} (hu : 0 < u) (n : Int) (e : Extracted) : 0 < ttrW n u e := by
  unfold ttrW
  split
  · exact lt_of_lt_of_le one_pos (le_max_left _ _)
  · exact hu

theorem beats_irrefl (n u : Int) (e : Extracted) : ¬ beats n u e e := by
  unfold beats tieBreak
  generalize ttrW n u e = t
  generalize e.weekly * t = p
  omega

theorem tieBreak_trans {a b c : Extracted} (h₁ : tieBreak a b) (h₂ : tieBreak b c) :
    tieBreak a c := by
  unfold tieBreak at *
  omega

theorem beats_trans {n u : Int} (hu : 0 < u) {a b c : Extracted}
    (h₁ : beats n u a b) (h₂ : beats n u b c) : beats n u a c := by
  have hta : 0 < ttrW n u a := ttrW_pos hu n a
  have htb : 0 < ttrW n u b := ttrW_pos hu n b
  have htc : 0 < ttrW n u c := ttrW_pos hu n c
  unfold beats at *
  rcases h₁ with h₁ | ⟨h₁e, h₁t⟩ <;> rcases h₂ with h₂ | ⟨h₂e, h₂t⟩
  · left
    nlinarith [mul_lt_mul_of_pos_right h₁ htc, mul_lt_mul_of_pos_right h₂ hta]
  · left
    nlinarith [mul_lt_mul_of_pos_right h₁ htc]
  · left
    nlinarith [mul_lt_mul_of_pos_right h₂ hta]
  · right
    refine ⟨?_, tieBreak_trans h₁t h₂t⟩
    have h₃ : (a.weekly * ttrW n u c) * ttrW n u b = (c.weekly * ttrW n u a) * ttrW n u b := by
      linear_combination ttrW n u c * h₁e + ttrW n u a * h₂e
    exact mul_right_cancel₀ (ne_of_gt htb) h₃

theorem fbBeats_irrefl (n u : Int) (e : Extracted) : ¬ fbBeats n u e e := by
  unfold fbBeats
  generalize ttrF n u e = t
  omega

theorem fbBeats_trans {n u : Int} {a b c : Extracted}
    (h₁ : fbBeats n u a b) (h₂ : fbBeats n u b c) : fbBeats n u a c := by
  unfold fbBeats at *
  generalize ttrF n u a = ta at *
  generalize ttrF n u b = tb at *
  generalize ttrF n u c = tc at *
  omega

/-! ### Structure of the selection loop -/

/-- The loop keeps two independent accumulators: the primary best (over the
usability-filtered candidates) and the fallback (over all decoded
candidates). -/
theorem foldl_chooseStepH (n p u : Int) (cs : List Candidate) (b f : Option Extracted) :
    cs.foldl (chooseStepH n p u) (b, f) =
      ((cs.filterMap extractH).foldl (bestUpd n p u) b,
       (cs.filterMap extractH).foldl (fbUpd n u) f) := by
  induction cs generalizing b f with
  | nil => simp
  | cons c cs ih =>
    simp only [List.foldl_cons, List.filterMap_cons]
    cases h : extractH c with
    | none => simp [chooseStepH, h, ih]
    | some e => simp [chooseStepH, h, ih]

theorem foldl_chooseStepD (n p u : Int) (cs : List Candidate) (b f : Option Extracted) :
    cs.foldl (chooseStepD n p u) (b, f) =
      ((cs.filterMap extractD).foldl (bestUpd n p u) b,
       (cs.filterMap extractD).foldl (fbUpd n u) f) := by
  induction cs generalizing b f with
  | nil => simp
  | cons c cs ih =>
    simp only [List.foldl_cons, List.filterMap_cons]
    cases h : extractD c with
    | none => simp [chooseStepD, h, ih]
    | some e => simp [chooseStepD, h, ih]

/-- Invariant of the primary-best accumulator: relative to the list `S` of
survivors already processed, the accumulator is `none` exactly while `S` is
empty, and otherwise holds a member of `S` that no member of `S` beats. -/
theorem bestFold_inv {n p u : Int} (hu : 0 < u) :
    ∀ (es : List Extracted) (b : Option Extracted) (S : List Extracted),
      ((b = none → S = []) ∧
        ∀ e, b = some e → e ∈ S ∧ ∀ s ∈ S, ¬ beats n u s e) →
      ((es.foldl (bestUpd n p u) b = none →
          S ++ es.filter (fun e => decide (p < e.fiveh)) = []) ∧
        ∀ e, es.foldl (bestUpd n p u) b = some e →
          e ∈ S ++ es.filter (fun e => decide (p < e.fiveh)) ∧
          ∀ s ∈ S ++ es.filter (fun e => decide (p < e.fiveh)), ¬ beats n u s e) := by
  intro es
  induction es with
  | nil => intro b S hP; simpa using hP
  | cons e es ih =>
    intro b S hP
    simp only [List.foldl_cons]
    by_cases hf : p < e.fiveh
    · have hnle : ¬ e.fiveh ≤ p := not_le.mpr hf
      have hfilter : (e :: es).filter (fun x => decide (p < x.fiveh)) =
          e :: es.filter (fun x => decide (p < x.fiveh)) := by
        simp [List.filter_cons, hf]
      rw [hfilter]
      have hassoc : ∀ l : List Extracted, S ++ e :: l = (S ++ [e]) ++ l := by
        intro l; simp
      rw [hassoc]
      cases b with
      | none =>
        have hS : S = [] := hP.1 rfl
        have hstep : bestUpd n p u none e = some e := by
          unfold bestUpd; simp [hnle]
        rw [hstep]
        refine ih (some e) (S ++ [e]) ⟨by simp, ?_⟩
        intro e' he'
        have he : e' = e := by simpa using he'.symm
        rw [he]
        refine ⟨by simp, ?_⟩
        intro s hs
        have hs' : s = e := by simpa [hS] using hs
        rw [hs']
        exact beats_irrefl n u e
      | some bb =>
        obtain ⟨hmem, hmax⟩ := hP.2 bb rfl
        by_cases hbt : beats n u e bb
        · have hstep : bestUpd n p u (some bb) e = some e := by
            unfold bestUpd; simp [hnle, hbt]
          rw [hstep]
          refine ih (some e) (S ++ [e]) ⟨by simp, ?_⟩
          intro e' he'
          have he : e' = e := by simpa using he'.symm
          rw [he]
          refine ⟨by simp, ?_⟩
          intro s hs
          rcases (List.mem_append.mp hs) with hs | hs
          · intro hse
            exact hmax s hs (beats_trans hu hse hbt)
          · have hs' : s = e := by simpa using hs
            rw [hs']
            exact beats_irrefl n u e
        · have hstep : bestUpd n p u (some bb) e = some bb := by
            unfold bestUpd; simp [hnle, hbt]
          rw [hstep]
          refine ih (some bb) (S ++ [e]) ⟨by simp, ?_⟩
          intro e' he'
          have he : e' = bb := by simpa using he'.symm
          rw [he]
          refine ⟨by simp [hmem], ?_⟩
          intro s hs
          rcases (List.mem_append.mp hs) with hs | hs
          · exact hmax s hs
          · have hs' : s = e := by simpa using hs
            rw [hs']
            exact hbt
    · have hle : e.fiveh ≤ p := not_lt.mp hf
      have hstep : bestUpd n p u b e = b := by
        unfold bestUpd; simp [hle]
      have hfilter : (e :: es).filter (fun x => decide (p < x.fiveh)) =
          es.filter (fun x => decide (p < x.fiveh)) := by
        simp [List.filter_cons, hf]
      rw [hfilter, hstep]
      exact ih b S hP

/-- If every decoded candidate fails the usability filter, the primary best
stays `none`. -/
theorem bestFold_none {n p u : Int} :
    ∀ (es : List Extracted), (∀ e ∈ es, e.fiveh ≤ p) →
      es.foldl (bestUpd n p u) none = none := by
  intro es
  induction es with
  | nil => intro _; rfl
  | cons e es ih =>
    intro h
    have hstep : bestUpd n p u none e = none := by
      unfold bestUpd; simp [h e (by simp)]
    simp only [List.foldl_cons, hstep]
    exact ih fun e' he' => h e' (by simp [he'])

/-- Invariant of the fallback accumulator, mirroring `bestFold_inv` without
the usability filter. -/
theorem fbFold_inv {n u : Int} :
    ∀ (es : List Extracted) (fb : Option Extracted) (S : List Extracted),
      ((fb = none → S = []) ∧
        ∀ e, fb = some e → e ∈ S ∧ ∀ s ∈ S, ¬ fbBeats n u s e) →
      ((es.foldl (fbUpd n u) fb = none → S ++ es = []) ∧
        ∀ e, es.foldl (fbUpd n u) fb = some e →
          e ∈ S ++ es ∧ ∀ s ∈ S ++ es, ¬ fbBeats n u s e) := by
  intro es
  induction es with
  | nil => intro fb S hP; simpa using hP
  | cons e es ih =>
    intro fb S hP
    simp only [List.foldl_cons]
    have hassoc : S ++ e :: es = (S ++ [e]) ++ es := by simp
    rw [hassoc]
    cases fb with
    | none =>
      have hS : S = [] := hP.1 rfl
      have hstep : fbUpd n u none e = some e := rfl
      rw [hstep]
      refine ih (some e) (S ++ [e]) ⟨by simp, ?_⟩
      intro e' he'
      have he : e' = e := by simpa using he'.symm
      rw [he]
      refine ⟨by simp, ?_⟩
      intro s hs
      have hs' : s = e := by simpa [hS] using hs
      rw [hs']
      exact fbBeats_irrefl n u e
    | some f =>
      obtain ⟨hmem, hmax⟩ := hP.2 f rfl
      by_cases hbt : fbBeats n u e f
      · have hstep : fbUpd n u (some f) e = some e := by
          unfold fbUpd; simp [hbt]
        rw [hstep]
        refine ih (some e) (S ++ [e]) ⟨by simp, ?_⟩
        intro e' he'
        have he : e' = e := by simpa using he'.symm
        rw [he]
        refine ⟨by simp, ?_⟩
        intro s hs
        rcases (List.mem_append.mp hs) with hs | hs
        · intro hse
          exact hmax s hs (fbBeats_trans hse hbt)
        · have hs' : s = e := by simpa using hs
          rw [hs']
          exact fbBeats_irrefl n u e
      · have hstep : fbUpd n u (some f) e = some f := by
          unfold fbUpd; simp [hbt]
        rw [hstep]
        refine ih (some f) (S ++ [e]) ⟨by simp, ?_⟩
        intro e' he'
        have he : e' = f := by simpa using he'.symm
        rw [he]
        refine ⟨by simp [hmem], ?_⟩
        intro s hs
        rcases (List.mem_append.mp hs) with hs | hs
        · exact hmax s hs
        · have hs' : s = e := by simpa using hs
          rw [hs']
          exact hbt

/-! ### C2, C3, C4, C9, C10 -/

/-- Whenever the survivor set is non-empty, `choose_account` returns a
survivor that no other survivor beats. -/
theorem choose_primary_max (cs : List Candidate)
    (now_ts fiveh_unusable_pct unknown_reset_ttr_sec : Int)
    (hu : 0 < unknown_reset_ttr_sec) (hne : survivors cs fiveh_unusable_pct ≠ []) :
    ∃ e ∈ survivors cs fiveh_unusable_pct,
      choose_account cs now_ts fiveh_unusable_pct unknown_reset_ttr_sec = some e.name ∧
      ∀ s ∈ survivors cs fiveh_unusable_pct, ¬ beats now_ts unknown_reset_ttr_sec s e := by
  have hinv := bestFold_inv (n := now_ts) (p := fiveh_unusable_pct) hu
    (cs.filterMap extractH) none [] (by simp)
  unfold choose_account
  rw [foldl_chooseStepH]
  cases hb : (cs.filterMap extractH).foldl
      (bestUpd now_ts fiveh_unusable_pct unknown_reset_ttr_sec) none with
  | none =>
    exact absurd (by simpa [survivors, rankable] using hinv.1 hb) hne
  | some e =>
    obtain ⟨hmem, hmax⟩ := hinv.2 e hb
    refine ⟨e, by simpa [survivors, rankable] using hmem, rfl, ?_⟩
    intro s hs
    exact hmax s (by simpa [survivors, rankable] using hs)

/-- Claim C2: after skipping candidates with unknown remaining data and
excluding candidates with `fiveh_remaining <= fiveh_unusable_pct`,
`choose_account` returns the name of a surviving candidate that no other
surviving candidate beats under the cross-multiplied weekly-urgency
comparison with the weekly/5-hour/reset tie-break chain (`beats`).  Stated
for a positive `unknown_reset_ttr_sec` (the source constant is 10 years) and
a non-empty survivor set (otherwise the fallback path of C3 applies). -/
theorem claim_C2_primary_ranking_max (cs : List Candidate)
    (now_ts fiveh_unusable_pct unknown_reset_ttr_sec : Int)
    (hu : 0 < unknown_reset_ttr_sec) (hne : survivors cs fiveh_unusable_pct ≠ []) :
    ∃ e ∈ survivors cs fiveh_unusable_pct,
      choose_account cs now_ts fiveh_unusable_pct unknown_reset_ttr_sec = some e.name ∧
      ∀ s ∈ survivors cs fiveh_unusable_pct, ¬ beats now_ts unknown_reset_ttr_sec s e :=
  choose_primary_max cs now_ts fiveh_unusable_pct unknown_reset_ttr_sec hu hne

/-- Witness for C2 at a concrete candidate list. -/
theorem claim_C2_witness :
    ∃ e ∈ survivors
        [⟨"A", .intv 80, .intv 50, .intv 1000, .missing⟩,
         ⟨"B", .intv 90, .intv 3, .intv 500, .missing⟩] 5,
      choose_account
        [⟨"A", .intv 80, .intv 50, .intv 1000, .missing⟩,
         ⟨"B", .intv 90, .intv 3, .intv 500, .missing⟩] 0 5 315360000 = some e.name ∧
      ∀ s ∈ survivors
        [⟨"A", .intv 80, .intv 50, .intv 1000, .missing⟩,
         ⟨"B", .intv 90, .intv 3, .intv 500, .missing⟩] 5,
        ¬ beats 0 315360000 s e :=
  claim_C2_primary_ranking_max _ 0 5 315360000 (by decide) (by decide)

/-- Counterexample to claim C3 as stated: this single candidate has usable
data in the claim's sense (`weekly_remaining` and `fiveh_remaining` both
distinct from `-1`) and satisfies `fiveh_remaining <= fiveh_unusable_pct`,
yet `choose_account` returns `none`, because the candidate's name is falsy
and the code skips it before the fallback accumulator is ever updated. -/
theorem claim_C3_counterexample :
    (Candidate.mk "" (.intv 0) (.intv 0) .missing .missing).weekly_remaining = .intv 0 ∧
    (Candidate.mk "" (.intv 0) (.intv 0) .missing .missing).fiveh_remaining = .intv 0 ∧
    (0 : Int) ≠ -1 ∧ (0 : Int) ≤ 5 ∧
    choose_account [Candidate.mk "" (.intv 0) (.intv 0) .missing .missing]
      0 5 315360000 = none := by
  refine ⟨rfl, rfl, by decide, by decide, ?_⟩
  rfl

/-- When every rankable candidate fails the usability filter, the fallback
selection is returned. -/
theorem choose_fallback_spec (cs : List Candidate)
    (now_ts fiveh_unusable_pct unknown_reset_ttr_sec : Int)
    (hne : rankable cs ≠ [])
    (hall : ∀ e ∈ rankable cs, e.fiveh ≤ fiveh_unusable_pct) :
    ∃ e ∈ rankable cs,
      choose_account cs now_ts fiveh_unusable_pct unknown_reset_ttr_sec = some e.name ∧
      ∀ s ∈ rankable cs, ¬ fbBeats now_ts unknown_reset_ttr_sec s e := by
  unfold choose_account
  rw [foldl_chooseStepH]
  have hb : (cs.filterMap extractH).foldl
      (bestUpd now_ts fiveh_unusable_pct unknown_reset_ttr_sec) none = none :=
    bestFold_none _ (by simpa [rankable] using hall)
  rw [hb]
  have hinv := fbFold_inv (n := now_ts) (u := unknown_reset_ttr_sec)
    (cs.filterMap extractH) none [] (by simp)
  cases hf : (cs.filterMap extractH).foldl (fbUpd now_ts unknown_reset_ttr_sec) none with
  | none =>
    exact absurd (by simpa [rankable] using hinv.1 hf) hne
  | some e =>
    obtain ⟨hmem, hmax⟩ := hinv.2 e hf
    refine ⟨e, by simpa [rankable] using hmem, rfl, ?_⟩
    intro s hs
    exact hmax s (by simpa [rankable] using hs)

/-- Claim C3 as amended: provided at least one candidate is rankable
(non-empty name and non-negative integer weekly/5-hour remaining values, the
code's decoding of "usable data") and every rankable candidate has
`fiveh_remaining <= fiveh_unusable_pct`, `choose_account` returns the name of
a rankable candidate that no rankable candidate fallback-beats (maximum
`fiveh_remaining`, ties by minimum `ttr_fiveh`) — in particular, never
`none`. -/
theorem claim_C3_fallback_amended (cs : List Candidate)
    (now_ts fiveh_unusable_pct unknown_reset_ttr_sec : Int)
    (hne : rankable cs ≠ [])
    (hall : ∀ e ∈ rankable cs, e.fiveh ≤ fiveh_unusable_pct) :
    ∃ e ∈ rankable cs,
      choose_account cs now_ts fiveh_unusable_pct unknown_reset_ttr_sec = some e.name ∧
      ∀ s ∈ rankable cs, ¬ fbBeats now_ts unknown_reset_ttr_sec s e :=
  choose_fallback_spec cs now_ts fiveh_unusable_pct unknown_reset_ttr_sec hne hall

/-- Witness for the amended C3. -/
theorem claim_C3_witness :
    ∃ e ∈ rankable
        [⟨"A", .intv 80, .intv 2, .missing, .missing⟩,
         ⟨"B", .intv 10, .intv 4, .missing, .missing⟩],
      choose_account
        [⟨"A", .intv 80, .intv 2, .missing, .missing⟩,
         ⟨"B", .intv 10, .intv 4, .missing, .missing⟩] 0 5 315360000 = some e.name ∧
      ∀ s ∈ rankable
        [⟨"A", .intv 80, .intv 2, .missing, .missing⟩,
         ⟨"B", .intv 10, .intv 4, .missing, .missing⟩],
        ¬ fbBeats 0 315360000 s e :=
  claim_C3_fallback_amended _ 0 5 315360000 (by decide) (by decide)

/-- Counterexample to claim C4 as stated: two candidates with identical usage
data but different names.  The lists are permutations of each other, yet
`choose_account` returns the first-listed name in each case, so the result is
not order-independent when candidates tie on every comparison key. -/
theorem claim_C4_counterexample :
    List.Perm
      [Candidate.mk "a" (.intv 50) (.intv 50) .missing .missing,
       Candidate.mk "b" (.intv 50) (.intv 50) .missing .missing]
      [Candidate.mk "b" (.intv 50) (.intv 50) .missing .missing,
       Candidate.mk "a" (.intv 50) (.intv 50) .missing .missing] ∧
    choose_account
      [Candidate.mk "a" (.intv 50) (.intv 50) .missing .missing,
       Candidate.mk "b" (.intv 50) (.intv 50) .missing .missing] 0 5 10 = some "a" ∧
    choose_account
      [Candidate.mk "b" (.intv 50) (.intv 50) .missing .missing,
       Candidate.mk "a" (.intv 50) (.intv 50) .missing .missing] 0 5 10 = some "b" := by
  refine ⟨?_, rfl, rfl⟩
  exact List.Perm.swap _ _ _

/-- Claim C4 as amended: `choose_account` is deterministic (it is a pure
function of its arguments), and it is order-independent on any candidate list
in which no two distinct decoded candidates are fully tied — that is, any two
distinct rankable candidates are strictly ordered by the primary comparison
and by the fallback comparison. -/
theorem claim_C4_order_independence_amended (cs cs' : List Candidate)
    (now_ts fiveh_unusable_pct unknown_reset_ttr_sec : Int)
    (hperm : List.Perm cs cs') (hu : 0 < unknown_reset_ttr_sec)
    (hcmp : ∀ e₁ ∈ rankable cs, ∀ e₂ ∈ rankable cs, e₁ ≠ e₂ →
      (beats now_ts unknown_reset_ttr_sec e₁ e₂ ∨ beats now_ts unknown_reset_ttr_sec e₂ e₁) ∧
      (fbBeats now_ts unknown_reset_ttr_sec e₁ e₂ ∨
        fbBeats now_ts unknown_reset_ttr_sec e₂ e₁)) :
    choose_account cs now_ts fiveh_unusable_pct unknown_reset_ttr_sec =
      choose_account cs' now_ts fiveh_unusable_pct unknown_reset_ttr_sec := by
  have hpermR : List.Perm (rankable cs) (rankable cs') := hperm.filterMap extractH
  have hpermS : List.Perm (survivors cs fiveh_unusable_pct)
      (survivors cs' fiveh_unusable_pct) := hpermR.filter _
  by_cases hs : survivors cs fiveh_unusable_pct = []
  · -- no survivor: both sides take the fallback path
    have hs' : survivors cs' fiveh_unusable_pct = [] := by
      rw [hs] at hpermS
      exact hpermS.symm.eq_nil
    have hallP : ∀ e ∈ rankable cs, e.fiveh ≤ fiveh_unusable_pct := by
      intro e he
      by_contra hgt
      have : e ∈ survivors cs fiveh_unusable_pct := by
        unfold survivors
        exact List.mem_filter.mpr ⟨he, by simpa using not_le.mp hgt⟩
      simp [hs] at this
    have hallP' : ∀ e ∈ rankable cs', e.fiveh ≤ fiveh_unusable_pct := by
      intro e he
      exact hallP e (hpermR.symm.subset he)
    by_cases hr : rankable cs = []
    · have hr' : rankable cs' = [] := by
        rw [hr] at hpermR
        exact hpermR.symm.eq_nil
      unfold choose_account
      rw [foldl_chooseStepH, foldl_chooseStepH]
      have h₁ : cs.filterMap extractH = [] := hr
      have h₂ : cs'.filterMap extractH = [] := hr'
      rw [h₁, h₂]
    · have hr' : rankable cs' ≠ [] := by
        intro h
        rw [h] at hpermR
        exact hr hpermR.eq_nil
      obtain ⟨e, heR, heq, hmax⟩ :=
        choose_fallback_spec cs now_ts fiveh_unusable_pct unknown_reset_ttr_sec hr hallP
      obtain ⟨e', heR', heq', hmax'⟩ :=
        choose_fallback_spec cs' now_ts fiveh_unusable_pct unknown_reset_ttr_sec hr' hallP'
      have heR'cs : e' ∈ rankable cs := hpermR.symm.subset heR'
      have heRcs' : e ∈ rankable cs' := hpermR.subset heR
      by_cases hee : e = e'
      · rw [heq, heq', hee]
      · rcases (hcmp e heR e' heR'cs hee).2 with hb | hb
        · exact absurd hb (hmax' e heRcs')
        · exact absurd hb (hmax e' heR'cs)
  · -- some survivor: both sides take the primary path
    have hs' : survivors cs' fiveh_unusable_pct ≠ [] := by
      intro h
      rw [h] at hpermS
      exact hs hpermS.eq_nil
    obtain ⟨e, heS, heq, hmax⟩ :=
      choose_primary_max cs now_ts fiveh_unusable_pct unknown_reset_ttr_sec hu hs
    obtain ⟨e', heS', heq', hmax'⟩ :=
      choose_primary_max cs' now_ts fiveh_unusable_pct unknown_reset_ttr_sec hu hs'
    have heS'cs : e' ∈ survivors cs fiveh_unusable_pct := hpermS.symm.subset heS'
    have heScs' : e ∈ survivors cs' fiveh_unusable_pct := hpermS.subset heS
    have heR : e ∈ rankable cs := (List.mem_filter.mp heS).1
    have heR' : e' ∈ rankable cs := (List.mem_filter.mp heS'cs).1
    by_cases hee : e = e'
    · rw [heq, heq', hee]
    · rcases (hcmp e heR e' heR' hee).1 with hb | hb
      · exact absurd hb (hmax' e heScs')
      · exact absurd hb (hmax e' heS'cs)

/-- Witness for the amended C4: two strictly ordered candidates, swapped. -/
theorem claim_C4_witness :
    choose_account
      [Candidate.mk "a" (.intv 80) (.intv 50) .missing .missing,
       Candidate.mk "b" (.intv 60) (.intv 40) .missing .missing] 0 5 10 =
    choose_account
      [Candidate.mk "b" (.intv 60) (.intv 40) .missing .missing,
       Candidate.mk "a" (.intv 80) (.intv 50) .missing .missing] 0 5 10 :=
  claim_C4_order_independence_amended _ _ 0 5 10 (List.Perm.swap _ _ _) (by decide)
    (by decide)

/-- The two candidate decoders agree whenever neither reset field holds a
truthy non-`int`-convertible value.  (For the remaining fields the two
decoders always agree: the heuristic module turns a bad value into `-1` and
skips, while `_default_choose_account` skips via the exception.) -/
theorem extract_eq (c : Candidate)
    (hw : c.weekly_reset_at ≠ .badTruthy) (hf : c.fiveh_reset_at ≠ .badTruthy) :
    extractH c = extractD c := by
  obtain ⟨nm, w, f, wr, fr⟩ := c
  simp only [Candidate.weekly_reset_at] at hw
  simp only [Candidate.fiveh_reset_at] at hf
  cases w <;> cases f <;> cases wr <;> cases fr <;>
    simp_all [extractH, extractD, toIntD, convRemaining, convReset]

/-- Counterexample to claim C9 as stated: a candidate whose
`weekly_reset_at` holds a truthy value that `int()` rejects (for example the
string `"abc"`).  `choose_account` defaults the reset to `0` via `_to_int`
and ranks the candidate; `_default_choose_account`'s single try block skips
the whole candidate, so the two implementations disagree. -/
theorem claim_C9_counterexample :
    choose_account [Candidate.mk "a" (.intv 50) (.intv 50) .badTruthy .missing]
      0 5 10 = some "a" ∧
    _default_choose_account [Candidate.mk "a" (.intv 50) (.intv 50) .badTruthy .missing]
      0 5 10 = none := by
  exact ⟨rfl, rfl⟩

/-- Claim C9 as amended: `choose_account` and `_default_choose_account`
return the same result on every candidate list in which no candidate's
`weekly_reset_at` or `fiveh_reset_at` field holds a truthy
non-`int`-convertible value (missing, `int`-convertible, and falsy
unconvertible values — including all well-formed integer data — are all
fine, and the remaining-percentage fields are unrestricted). -/
theorem claim_C9_equivalence_amended (cs : List Candidate)
    (now_ts fiveh_unusable_pct unknown_reset_ttr_sec : Int)
    (h : ∀ c ∈ cs, c.weekly_reset_at ≠ .badTruthy ∧ c.fiveh_reset_at ≠ .badTruthy) :
    choose_account cs now_ts fiveh_unusable_pct unknown_reset_ttr_sec =
      _default_choose_account cs now_ts fiveh_unusable_pct unknown_reset_ttr_sec := by
  unfold choose_account _default_choose_account
  suffices hfold : ∀ st, cs.foldl (chooseStepH now_ts fiveh_unusable_pct unknown_reset_ttr_sec) st =
      cs.foldl (chooseStepD now_ts fiveh_unusable_pct unknown_reset_ttr_sec) st by
    rw [hfold]
  induction cs with
  | nil => intro st; rfl
  | cons c cs ih =>
    intro st
    simp only [List.foldl_cons]
    have hc := h c (by simp)
    have hstep : chooseStepH now_ts fiveh_unusable_pct unknown_reset_ttr_sec st c =
        chooseStepD now_ts fiveh_unusable_pct unknown_reset_ttr_sec st c := by
      unfold chooseStepH chooseStepD
      rw [extract_eq c hc.1 hc.2]
    rw [hstep]
    exact ih (fun c' hc' => h c' (by simp [hc'])) _

/-- Witness for the amended C9. -/
theorem claim_C9_witness :
    choose_account
      [Candidate.mk "a" (.intv 50) (.intv 50) (.intv 900) .badFalsy,
       Candidate.mk "b" (.intv 70) (.intv 20) .missing (.intv 300)] 10 5 315360000 =
    _default_choose_account
      [Candidate.mk "a" (.intv 50) (.intv 50) (.intv 900) .badFalsy,
       Candidate.mk "b" (.intv 70) (.intv 20) .missing (.intv 300)] 10 5 315360000 :=
  claim_C9_equivalence_amended _ 10 5 315360000 (by decide)

/-- A decoded candidate always carries its (non-empty) source name. -/
theorem extractH_name {c : Candidate} {e : Extracted} (h : extractH c = some e) :
    e.name = c.name ∧ c.name ≠ "" := by
  unfold extractH at h
  by_cases hn : c.name = ""
  · simp [hn] at h
  · refine ⟨?_, hn⟩
    simp only [hn, if_false, ite_false] at h
    split at h
    · exact absurd h (by simp)
    · exact (Option.some_inj.mp h).symm ▸ rfl

theorem extractD_name {c : Candidate} {e : Extracted} (h : extractD c = some e) :
    e.name = c.name ∧ c.name ≠ "" := by
  unfold extractD at h
  by_cases hn : c.name = ""
  · simp [hn] at h
  · refine ⟨?_, hn⟩
    simp only [hn, if_false, ite_false] at h
    split at h
    · split at h
      · exact absurd h (by simp)
      · exact (Option.some_inj.mp h).symm ▸ rfl
    · exact absurd h (by simp)

/-- A best-accumulator update yields either the new candidate or the old
accumulator value. -/
theorem bestUpd_name {n p u : Int} (b : Option Extracted) (e e' : Extracted)
    (h : bestUpd n p u b e = some e') : e' = e ∨ b = some e' := by
  unfold bestUpd at h
  split at h
  · right; exact h
  · split at h
    · left; exact (Option.some_inj.mp h).symm
    · split at h
      · left; exact (Option.some_inj.mp h).symm
      · right; exact h

/-- A fallback-accumulator update yields either the new candidate or the old
accumulator value. -/
theorem fbUpd_name {n u : Int} (fb : Option Extracted) (e e' : Extracted)
    (h : fbUpd n u fb e = some e') : e' = e ∨ fb = some e' := by
  unfold fbUpd at h
  split at h
  · left; exact (Option.some_inj.mp h).symm
  · split at h
    · left; exact (Option.some_inj.mp h).symm
    · right; exact h

/-- The selection state only ever holds decoded candidates, whose names are
non-empty. -/
theorem foldl_names_ne {n p u : Int}
    (extract : Candidate → Option Extracted)
    (hextract : ∀ c e, extract c = some e → e.name ≠ "")
    (step : (Option Extracted × Option Extracted) → Candidate →
      Option Extracted × Option Extracted)
    (hstep : ∀ st c, step st c = match extract c with
      | none => st
      | some e => (bestUpd n p u st.1 e, fbUpd n u st.2 e)) :
    ∀ (cs : List Candidate) (st : Option Extracted × Option Extracted),
      ((∀ e, st.1 = some e → e.name ≠ "") ∧ (∀ e, st.2 = some e → e.name ≠ "")) →
      ((∀ e, (cs.foldl step st).1 = some e → e.name ≠ "") ∧
       (∀ e, (cs.foldl step st).2 = some e → e.name ≠ "")) := by
  intro cs
  induction cs with
  | nil => intro st h; simpa using h
  | cons c cs ih =>
    intro st h
    simp only [List.foldl_cons]
    refine ih (step st c) ?_
    rw [hstep]
    cases hx : extract c with
    | none => simpa using h
    | some e =>
      constructor
      · intro e' he'
        simp only at he'
        rcases bestUpd_name st.1 e e' he' with rfl | hb
        · exact hextract c _ hx
        · exact h.1 e' hb
      · intro e' he'
        simp only at he'
        rcases fbUpd_name st.2 e e' he' with rfl | hb
        · exact hextract c _ hx
        · exact h.2 e' hb

/-- Claim C10: a candidate with a missing/empty/falsy name (modelled as the
empty string computed by `str(c.get("name") or "")`) is ignored entirely by
both heuristic implementations: dropping all such candidates does not change
the result, and neither the primary ranking nor the fallback ever returns
such a candidate's (empty) name. -/
theorem claim_C10_unnamed_ignored (cs : List Candidate)
    (now_ts fiveh_unusable_pct unknown_reset_ttr_sec : Int) :
    (choose_account cs now_ts fiveh_unusable_pct unknown_reset_ttr_sec =
      choose_account (cs.filter (fun c => !(c.name == "")))
        now_ts fiveh_unusable_pct unknown_reset_ttr_sec) ∧
    choose_account cs now_ts fiveh_unusable_pct unknown_reset_ttr_sec ≠ some "" ∧
    (_default_choose_account cs now_ts fiveh_unusable_pct unknown_reset_ttr_sec =
      _default_choose_account (cs.filter (fun c => !(c.name == "")))
        now_ts fiveh_unusable_pct unknown_reset_ttr_sec) ∧
    _default_choose_account cs now_ts fiveh_unusable_pct unknown_reset_ttr_sec ≠ some "" := by
  have hH : ∀ st, cs.foldl (chooseStepH now_ts fiveh_unusable_pct unknown_reset_ttr_sec) st =
      (cs.filter (fun c => !(c.name == ""))).foldl
        (chooseStepH now_ts fiveh_unusable_pct unknown_reset_ttr_sec) st := by
    induction cs with
    | nil => intro st; rfl
    | cons c cs ih =>
      intro st
      by_cases hn : c.name = ""
      · have hx : extractH c = none := by unfold extractH; simp [hn]
        have hstep : chooseStepH now_ts fiveh_unusable_pct unknown_reset_ttr_sec st c = st := by
          unfold chooseStepH; rw [hx]
        simp [List.filter_cons, hn, hstep, ih]
      · simp [List.filter_cons, hn, List.foldl_cons, ih]
  have hD : ∀ st, cs.foldl (chooseStepD now_ts fiveh_unusable_pct unknown_reset_ttr_sec) st =
      (cs.filter (fun c => !(c.name == ""))).foldl
        (chooseStepD now_ts fiveh_unusable_pct unknown_reset_ttr_sec) st := by
    clear hH
    induction cs with
    | nil => intro st; rfl
    | cons c cs ih =>
      intro st
      by_cases hn : c.name = ""
      · have hx : extractD c = none := by unfold extractD; simp [hn]
        have hstep : chooseStepD now_ts fiveh_unusable_pct unknown_reset_ttr_sec st c = st := by
          unfold chooseStepD; rw [hx]
        simp [List.filter_cons, hn, hstep, ih]
      · simp [List.filter_cons, hn, List.foldl_cons, ih]
  have hnamesH := foldl_names_ne extractH (fun c e hx => (extractH_name hx).1 ▸ (extractH_name hx).2)
    (chooseStepH now_ts fiveh_unusable_pct unknown_reset_ttr_sec) (fun st c => rfl)
    cs (none, none) (by simp)
  have hnamesD := foldl_names_ne extractD (fun c e hx => (extractD_name hx).1 ▸ (extractD_name hx).2)
    (chooseStepD now_ts fiveh_unusable_pct unknown_reset_ttr_sec) (fun st c => rfl)
    cs (none, none) (by simp)
  refine ⟨?_, ?_, ?_, ?_⟩
  · unfold choose_account
    rw [hH]
  · unfold choose_account
    unfold finalize
    split
    · next b fb heq =>
      intro hcontra
      have hb : (cs.foldl (chooseStepH now_ts fiveh_unusable_pct unknown_reset_ttr_sec)
          (none, none)).1 = some b := by rw [heq]
      exact hnamesH.1 b hb (Option.some_inj.mp hcontra)
    · next f heq =>
      intro hcontra
      have hf : (cs.foldl (chooseStepH now_ts fiveh_unusable_pct unknown_reset_ttr_sec)
          (none, none)).2 = some f := by rw [heq]
      exact hnamesH.2 f hf (Option.some_inj.mp hcontra)
    · simp
  · unfold _default_choose_account
    rw [hD]
  · unfold _default_choose_account
    unfold finalize
    split
    · next b fb heq =>
      intro hcontra
      have hb : (cs.foldl (chooseStepD now_ts fiveh_unusable_pct unknown_reset_ttr_sec)
          (none, none)).1 = some b := by rw [heq]
      exact hnamesD.1 b hb (Option.some_inj.mp hcontra)
    · next f heq =>
      intro hcontra
      have hf : (cs.foldl (chooseStepD now_ts fiveh_unusable_pct unknown_reset_ttr_sec)
          (none, none)).2 = some f := by rw [heq]
      exact hnamesD.2 f hf (Option.some_inj.mp hcontra)
    · simp

/-! ### C5: remaining-percent normalization

`_remaining_percent` (identical in `codex_accounts_usage.py` and
`codex_accounts.py`) computes `100.0 - float(used)`, clamps the result into
`[0, 100]` with two sequential `if`s, and applies `int(round(...))`.  Numbers
are modelled as rationals; Python's `round` on a float rounds half to even. -/

/-- Python's `round` to the nearest integer with ties to even. -/
def pyRound (q : ℚ) : ℤ :=
  if q - ⌊q⌋ < 1/2 then ⌊q⌋
  else if 1/2 < q - ⌊q⌋ then ⌊q⌋ + 1
  else if 2 ∣ ⌊q⌋ then ⌊q⌋ else ⌊q⌋ + 1

/-- `_remaining_percent(used)`: `None` input (or an unconvertible value,
absorbed into `none` here) yields `None`; otherwise `100 - used` is clamped
below by `0`, then above by `100`, and rounded. -/
def _remaining_percent (used : Option ℚ) : Option ℤ :=
  match used with
  | none => none
  | some u =>
    let r₁ : ℚ := 100 - u
    let r₂ : ℚ := if r₁ < 0 then 0 else r₁
    let r₃ : ℚ := if r₂ > 100 then 100 else r₂
    some (pyRound r₃)

theorem pyRound_nonneg {q : ℚ} (h : 0 ≤ q) : 0 ≤ pyRound q := by
  have hf : (0 : ℤ) ≤ ⌊q⌋ := Int.floor_nonneg.mpr h
  unfold pyRound
  split
  · exact hf
  · split
    · omega
    · split
      · exact hf
      · omega

/-- Claim C5: the recorded remaining value (`value if value is not None else
-1`) is the sentinel `-1` exactly when `used_percent` is absent, and for a
numeric `used_percent = u` the function returns `round(clamp(100 - u, 0,
100))` as an integer. -/
theorem claim_C5_remaining_percent (u : Option ℚ) :
    ((_remaining_percent u).getD (-1) = -1 ↔ u = none) ∧
    (∀ x, u = some x →
      _remaining_percent u = some (pyRound (min 100 (max 0 (100 - x))))) := by
  have hclamp : ∀ x : ℚ,
      _remaining_percent (some x) = some (pyRound (min 100 (max 0 (100 - x)))) := by
    intro x
    unfold _remaining_percent
    simp only
    congr 1
    by_cases h₁ : (100 : ℚ) - x < 0
    · have hmax : max 0 (100 - x) = 0 := max_eq_left (le_of_lt h₁)
      have hmin : min 100 (max 0 (100 - x)) = 0 := by
        rw [hmax]; exact min_eq_right (by norm_num)
      rw [hmin]
      simp only [if_pos h₁]
      norm_num
    · have hmax : max 0 (100 - x) = 100 - x := max_eq_right (not_lt.mp h₁)
      by_cases h₂ : (100 : ℚ) - x > 100
      · have hmin : min 100 (max 0 (100 - x)) = 100 := by
          rw [hmax]; exact min_eq_left (le_of_lt h₂)
        simp [h₁, h₂, hmin]
      · have hmin : min 100 (max 0 (100 - x)) = 100 - x := by
          rw [hmax]; exact min_eq_right (not_lt.mp h₂)
        simp [h₁, h₂, hmin]
  constructor
  · cases u with
    | none => simp [_remaining_percent]
    | some x =>
      rw [hclamp x]
      have hge : (0 : ℤ) ≤ pyRound (min 100 (max 0 (100 - x))) := by
        apply pyRound_nonneg
        rcases le_total (100 : ℚ) (max 0 (100 - x)) with h | h
        · rw [min_eq_left h]; norm_num
        · rw [min_eq_right h]; exact le_max_left _ _
      constructor
      · intro hcontra
        simp only [Option.getD_some] at hcontra
        omega
      · intro hcontra
        exact absurd hcontra (by simp)
  · intro x hx
    rw [hx]
    exact hclamp x

/-- Witness for C5: `used_percent = 97.5` gives remaining `round(2.5) = 2`
(ties to even), not `-1`. -/
theorem claim_C5_witness :
    _remaining_percent (some (975/10)) =
      some (pyRound (min 100 (max 0 (100 - 975/10)))) :=
  (claim_C5_remaining_percent (some (975/10))).2 (975/10) rfl

/-! ### C6: the fetch boundary

`fetch_usage_for_auth` (identical in `codex_accounts_usage.py` and
`codex_accounts.py` up to the default-url plumbing) wraps only three
operations in `try` blocks: the credential read and parse, the HTTP request,
and `json.loads(body)`.  Everything after a `try` block runs unprotected:
`auth.get(...)` or `payload.get(...)` on a parsed JSON value that is not an
object raises an uncaught `AttributeError`, `.get` on a truthy non-dict
`tokens` or `rate_limit` value does the same, and `int(round(...))` raises
an uncaught `ValueError` when `used_percent` is NaN (NaN survives both
clamps).  The model therefore maps an effect environment into
`FetchOutcome`, whose `raised` constructor records an uncaught exception
escaping the fetch boundary. -/

/-- A Python float as it reaches `_remaining_percent`: finite values are
rationals; NaN and the two infinities are distinguished because the clamping
code treats them differently (`100.0 - nan` survives both clamps and
`round` raises; the infinities are clamped to a bound and never raise). -/
inductive PyFloat where
  | finite (q : ℚ)
  | nan
  | inf
  | ninf
deriving DecidableEq, Repr

/-- A rate-limit window as found in the response payload.  `used_percent =
none` covers both an absent key and a value `float()` rejects (each makes
`_remaining_percent` return `None` inside its own try block); `reset_at`
stays a raw `PyField` because `_window_info` converts it with
`int(...) if ... is not None else 0` under a blanket `except`. -/
structure WindowJson where
  used_percent : Option PyFloat
  reset_at : PyField
  limit_window_seconds : Option Int
deriving DecidableEq, Repr

/-- Normalized UsageWindow produced by `_window_info`. -/
structure UsageWindow where
  used_percent : Option PyFloat
  reset_at : Int
  limit_window_seconds : Option Int
deriving DecidableEq, Repr

/-- `_window_info(window)`: a non-dict window yields the all-unknown record;
otherwise `used_percent`/`limit_window_seconds` pass through and `reset_at`
is int-converted with fallback `0`. -/
def _window_info : Option WindowJson → UsageWindow
  | none => ⟨none, 0, none⟩
  | some w => ⟨w.used_percent, toIntD w.reset_at 0, w.limit_window_seconds⟩

/-- The value of `auth.get("tokens")` as used by
`tokens = auth.get("tokens") or {}`: an absent or falsy value becomes the
empty dict, a dict carries the (`or ""`-normalized) token strings, and a
truthy non-dict value makes the following `tokens.get(...)` raise.  A truthy
non-string `access_token` value only changes header contents and never
raises, so the strings suffice. -/
inductive TokensVal where
  | absentOrFalsy
  | dict (access_token account_id : String)
  | truthyNonDict
deriving DecidableEq, Repr

/-- Parsed credential JSON object; `has_api_key` is
`bool(auth.get("OPENAI_API_KEY"))`. -/
structure AuthJson where
  tokens : TokensVal
  has_api_key : Bool
deriving DecidableEq, Repr

/-- Outcome of `auth_file.read_text` + `json.loads`: `FileNotFoundError`,
any other read/parse exception, valid JSON that is not an object (on which
the unprotected `auth.get` raises), or an object. -/
inductive AuthRead where
  | missing
  | unreadable
  | nonObj
  | ok (auth : AuthJson)
deriving DecidableEq, Repr

/-- The value of `payload.get("rate_limit")` as used by
`rate_limit = payload.get("rate_limit") or {}`: absent/falsy becomes the
empty dict (both windows missing), a dict carries the two window values, and
a truthy non-dict value makes `rate_limit.get(...)` raise. -/
inductive RateLimitVal where
  | absentOrFalsy
  | dict (primary_window secondary_window : Option WindowJson)
  | truthyNonDict
deriving DecidableEq, Repr

/-- The JSON value produced by a successful `json.loads(body)`: an object,
or a non-object (on which the unprotected `payload.get` raises). -/
inductive JsonTop where
  | nonObj
  | obj (rate_limit : RateLimitVal)
deriving DecidableEq, Repr

/-- Outcome of decoding the HTTP response body. -/
inductive Body where
  | notJson
  | json (top : JsonTop)
deriving DecidableEq, Repr

/-- Outcome of `urllib.request.urlopen`: an `HTTPError` with a status code,
any other exception, or a readable body. -/
inductive HttpResp where
  | httpError (code : Int)
  | failed
  | ok (body : Body)
deriving DecidableEq, Repr

structure FetchEnv where
  authRead : AuthRead
  http : HttpResp
deriving DecidableEq, Repr

/-- The result dict returned by `fetch_usage_for_auth`: failures carry a
reason (and for `no_access_token` a `has_api_key` flag); successes carry the
two normalized windows and the two remaining-percent values. -/
inductive UsageResult where
  | failure (reason : String) (has_api_key : Option Bool)
  | success (primary secondary : UsageWindow) (fiveh_remaining weekly_remaining : Int)
deriving DecidableEq, Repr

def UsageResult.ok : UsageResult → Bool
  | .failure _ _ => false
  | .success _ _ _ _ => true

def UsageResult.reason : UsageResult → String
  | .failure r _ => r
  | .success _ _ _ _ => ""

/-- `_remaining_percent` extended to arbitrary float values, as called from
the fetch path.  The outer `none` is an uncaught `ValueError`:
`int(round(nan))` raises because NaN passes both clamp tests.  `100 - inf`
clamps to `0`, `100 - (-inf)` clamps to `100`; finite values take the
rational path proved against C5. -/
def _remaining_percent_py : Option PyFloat → Option (Option Int)
  | none => some none
  | some .nan => none
  | some .inf => some (some 0)
  | some .ninf => some (some 100)
  | some (.finite q) => some (_remaining_percent (some q))

/-- What a `fetch_usage_for_auth` call does, seen from its caller: it
returns a result dict, or it lets an exception escape. -/
inductive FetchOutcome where
  | result (r : UsageResult)
  | raised (e : String)
deriving DecidableEq, Repr

/-- Tail of the fetch success path: normalize the two windows, compute the
remaining percentages (either of which can raise on NaN), and build the
success dict with the `-1` sentinels. -/
def fetchSuccess (pw sw : Option WindowJson) : FetchOutcome :=
  match _remaining_percent_py (_window_info pw).used_percent with
  | none => .raised "ValueError"
  | some f =>
    match _remaining_percent_py (_window_info sw).used_percent with
    | none => .raised "ValueError"
    | some w =>
      .result (.success (_window_info pw) (_window_info sw) (f.getD (-1)) (w.getD (-1)))

/-- `fetch_usage_for_auth` over the effect environment. -/
def fetch_usage_for_auth (env : FetchEnv) : FetchOutcome :=
  match env.authRead with
  | .missing => .result (.failure "auth_missing" none)
  | .unreadable => .result (.failure "auth_read_failed" none)
  | .nonObj => .raised "AttributeError"
  | .ok auth =>
    match auth.tokens with
    | .truthyNonDict => .raised "AttributeError"
    | .absentOrFalsy => .result (.failure "no_access_token" (some auth.has_api_key))
    | .dict access_token _ =>
      if access_token = "" then
        .result (.failure "no_access_token" (some auth.has_api_key))
      else
        match env.http with
        | .httpError code => .result (.failure ("http_" ++ toString code) none)
        | .failed => .result (.failure "http_failed" none)
        | .ok .notJson => .result (.failure "payload_parse_failed" none)
        | .ok (.json .nonObj) => .raised "AttributeError"
        | .ok (.json (.obj .truthyNonDict)) => .raised "AttributeError"
        | .ok (.json (.obj .absentOrFalsy)) => fetchSuccess none none
        | .ok (.json (.obj (.dict pw sw))) => fetchSuccess pw sw

theorem remaining_py_none_iff (x : Option PyFloat) :
    _remaining_percent_py x = none ↔ x = some PyFloat.nan := by
  cases x with
  | none => simp [_remaining_percent_py]
  | some f => cases f <;> simp [_remaining_percent_py]

/-- Counterexample to claim C6 as stated: with readable credentials and a
`200` response whose body is valid JSON but not an object (for example
`"[]"`), `fetch_usage_for_auth` raises an uncaught `AttributeError` at
`payload.get("rate_limit")` instead of returning
`{ok: false, reason: "payload_parse_failed"}`; and a NaN `used_percent`
raises an uncaught `ValueError` at `int(round(...))`.  So the function does
raise past the fetch boundary. -/
theorem claim_C6_counterexample :
    fetch_usage_for_auth ⟨.ok ⟨.dict "tok" "", false⟩, .ok (.json .nonObj)⟩ =
      .raised "AttributeError" ∧
    FetchOutcome.raised "AttributeError" ≠
      FetchOutcome.result (.failure "payload_parse_failed" none) ∧
    fetch_usage_for_auth ⟨.ok ⟨.dict "tok" "", false⟩,
        .ok (.json (.obj (.dict (some ⟨some .nan, .missing, none⟩) none)))⟩ =
      .raised "ValueError" := by
  refine ⟨rfl, by decide, rfl⟩

/-- Claim C6 as amended: the three `try` blocks absorb a missing or
unreadable/unparsable credential file, a missing access token, HTTP status
errors, transport failures, and non-JSON bodies into result values with the
documented reasons; but a credential file or response body parsing to a
non-object, or a truthy non-dict `tokens` or `rate_limit` value, raises an
uncaught `AttributeError`, and a NaN `used_percent` raises an uncaught
`ValueError`; every outcome is either a success, a documented failure
reason, or one of these two uncaught exceptions. -/
theorem claim_C6_taxonomy_amended (env : FetchEnv) :
    (env.authRead = .missing →
      fetch_usage_for_auth env = .result (.failure "auth_missing" none)) ∧
    (env.authRead = .unreadable →
      fetch_usage_for_auth env = .result (.failure "auth_read_failed" none)) ∧
    (env.authRead = .nonObj → fetch_usage_for_auth env = .raised "AttributeError") ∧
    (∀ auth, env.authRead = .ok auth → auth.tokens = .truthyNonDict →
      fetch_usage_for_auth env = .raised "AttributeError") ∧
    (∀ auth, env.authRead = .ok auth → auth.tokens = .absentOrFalsy →
      fetch_usage_for_auth env =
        .result (.failure "no_access_token" (some auth.has_api_key))) ∧
    (∀ auth a, env.authRead = .ok auth → auth.tokens = .dict "" a →
      fetch_usage_for_auth env =
        .result (.failure "no_access_token" (some auth.has_api_key))) ∧
    (∀ auth t a code, env.authRead = .ok auth → auth.tokens = .dict t a → t ≠ "" →
      env.http = .httpError code →
      fetch_usage_for_auth env = .result (.failure ("http_" ++ toString code) none)) ∧
    (∀ auth t a, env.authRead = .ok auth → auth.tokens = .dict t a → t ≠ "" →
      env.http = .failed →
      fetch_usage_for_auth env = .result (.failure "http_failed" none)) ∧
    (∀ auth t a, env.authRead = .ok auth → auth.tokens = .dict t a → t ≠ "" →
      env.http = .ok .notJson →
      fetch_usage_for_auth env = .result (.failure "payload_parse_failed" none)) ∧
    (∀ auth t a, env.authRead = .ok auth → auth.tokens = .dict t a → t ≠ "" →
      env.http = .ok (.json .nonObj) →
      fetch_usage_for_auth env = .raised "AttributeError") ∧
    (∀ auth t a, env.authRead = .ok auth → auth.tokens = .dict t a → t ≠ "" →
      env.http = .ok (.json (.obj .truthyNonDict)) →
      fetch_usage_for_auth env = .raised "AttributeError") ∧
    (∀ pw sw, ((_window_info pw).used_percent = some PyFloat.nan ∨
        (_window_info sw).used_percent = some PyFloat.nan) →
      fetchSuccess pw sw = .raised "ValueError") ∧
    ((∃ r, fetch_usage_for_auth env = .result r ∧
        (r.ok = true ∨
          r.reason ∈ ["auth_missing", "auth_read_failed", "no_access_token",
            "http_failed", "payload_parse_failed"] ∨
          ∃ code : Int, r.reason = "http_" ++ toString code)) ∨
      fetch_usage_for_auth env = .raised "AttributeError" ∨
      fetch_usage_for_auth env = .raised "ValueError") := by
  have hsucc : ∀ pw sw, (fetchSuccess pw sw = .raised "ValueError") ∨
      ∃ r, fetchSuccess pw sw = .result r ∧ r.ok = true := by
    intro pw sw
    unfold fetchSuccess
    cases _remaining_percent_py (_window_info pw).used_percent with
    | none => left; rfl
    | some f =>
      cases _remaining_percent_py (_window_info sw).used_percent with
      | none => left; rfl
      | some w => right; exact ⟨_, rfl, rfl⟩
  refine ⟨?_, ?_, ?_, ?_, ?_, ?_, ?_, ?_, ?_, ?_, ?_, ?_, ?_⟩
  · intro h
    simp [fetch_usage_for_auth, h]
  · intro h
    simp [fetch_usage_for_auth, h]
  · intro h
    simp [fetch_usage_for_auth, h]
  · intro auth h ht
    simp [fetch_usage_for_auth, h, ht]
  · intro auth h ht
    simp [fetch_usage_for_auth, h, ht]
  · intro auth a h ht
    simp [fetch_usage_for_auth, h, ht]
  · intro auth t a code h ht hne hh
    simp [fetch_usage_for_auth, h, ht, hh, hne]
  · intro auth t a h ht hne hh
    simp [fetch_usage_for_auth, h, ht, hh, hne]
  · intro auth t a h ht hne hh
    simp [fetch_usage_for_auth, h, ht, hh, hne]
  · intro auth t a h ht hne hh
    simp [fetch_usage_for_auth, h, ht, hh, hne]
  · intro auth t a h ht hne hh
    simp [fetch_usage_for_auth, h, ht, hh, hne]
  · intro pw sw hnan
    unfold fetchSuccess
    rcases hnan with hn | hn
    · rw [(remaining_py_none_iff _).mpr hn]
    · cases hp : _remaining_percent_py (_window_info pw).used_percent with
      | none => rfl
      | some f => rw [(remaining_py_none_iff _).mpr hn]
  · cases har : env.authRead with
    | missing =>
      left
      refine ⟨.failure "auth_missing" none, ?_, ?_⟩
      · simp [fetch_usage_for_auth, har]
      · right; left; simp [UsageResult.reason]
    | unreadable =>
      left
      refine ⟨.failure "auth_read_failed" none, ?_, ?_⟩
      · simp [fetch_usage_for_auth, har]
      · right; left; simp [UsageResult.reason]
    | nonObj =>
      right; left
      simp [fetch_usage_for_auth, har]
    | ok auth =>
      cases htv : auth.tokens with
      | truthyNonDict =>
        right; left
        simp [fetch_usage_for_auth, har, htv]
      | absentOrFalsy =>
        left
        refine ⟨.failure "no_access_token" (some auth.has_api_key), ?_, ?_⟩
        · simp [fetch_usage_for_auth, har, htv]
        · right; left; simp [UsageResult.reason]
      | dict t a =>
        by_cases hte : t = ""
        · left
          refine ⟨.failure "no_access_token" (some auth.has_api_key), ?_, ?_⟩
          · simp [fetch_usage_for_auth, har, htv, hte]
          · right; left; simp [UsageResult.reason]
        · cases hj : env.http with
          | httpError code =>
            left
            refine ⟨.failure ("http_" ++ toString code) none, ?_, ?_⟩
            · simp [fetch_usage_for_auth, har, htv, hj, hte]
            · right; right; exact ⟨code, by simp [UsageResult.reason]⟩
          | failed =>
            left
            refine ⟨.failure "http_failed" none, ?_, ?_⟩
            · simp [fetch_usage_for_auth, har, htv, hj, hte]
            · right; left; simp [UsageResult.reason]
          | ok body =>
            cases body with
            | notJson =>
              left
              refine ⟨.failure "payload_parse_failed" none, ?_, ?_⟩
              · simp [fetch_usage_for_auth, har, htv, hj, hte]
              · right; left; simp [UsageResult.reason]
            | json top =>
              cases top with
              | nonObj =>
                right; left
                simp [fetch_usage_for_auth, har, htv, hj, hte]
              | obj rl =>
                have hfetch : ∀ pw sw,
                    env.http = .ok (.json (.obj (.dict pw sw))) →
                    fetch_usage_for_auth env = fetchSuccess pw sw := by
                  intro pw sw hj2
                  simp [fetch_usage_for_auth, har, htv, hj2, hte]
                cases rl with
                | truthyNonDict =>
                  right; left
                  simp [fetch_usage_for_auth, har, htv, hj, hte]
                | absentOrFalsy =>
                  have heq : fetch_usage_for_auth env = fetchSuccess none none := by
                    simp [fetch_usage_for_auth, har, htv, hj, hte]
                  rcases hsucc none none with hv | ⟨r, hr, hok⟩
                  · right; right; rw [heq, hv]
                  · left; exact ⟨r, by rw [heq, hr], Or.inl hok⟩
                | dict pw sw =>
                  have heq : fetch_usage_for_auth env = fetchSuccess pw sw :=
                    hfetch pw sw hj
                  rcases hsucc pw sw with hv | ⟨r, hr, hok⟩
                  · right; right; rw [heq, hv]
                  · left; exact ⟨r, by rw [heq, hr], Or.inl hok⟩

/-- Witness for the amended C6: an HTTP 401 maps to reason `http_401`. -/
theorem claim_C6_witness :
    fetch_usage_for_auth ⟨.ok ⟨.dict "tok" "acc", false⟩, .httpError 401⟩ =
      .result (.failure ("http_" ++ toString (401 : Int)) none) :=
  (claim_C6_taxonomy_amended ⟨.ok ⟨.dict "tok" "acc", false⟩, .httpError 401⟩
    ).2.2.2.2.2.2.1 ⟨.dict "tok" "acc", false⟩ "tok" "acc" 401 rfl rfl (by decide) rfl

/-! ### C1: bulk-fetch cache validation

`fetch_usage_bulk` exists twice.  The variant in `codex_accounts_usage.py`
records and validates per-file fingerprints; the variant in
`codex_accounts.py` stores no fingerprints and validates only the TTL, the
path list, and the URL.  Timestamps are modelled as integers, per-path
`stat` outcomes as an optional (mtime, size) pair, and a parsed cache file as
an optional `CacheEntry` (a missing, unreadable, or malformed file — or a
non-dict `results` value — is `none`, which the code treats as a miss). -/

structure Stat where
  st_mtime_ns : Int
  st_size : Int
deriving DecidableEq, Repr

/-- `f"{p}:{stat.st_mtime_ns}:{stat.st_size}"`, or `f"{p}:missing"` when
`p.stat()` raises. -/
def fingerprint (p : String) : Option Stat → String
  | some s => p ++ ":" ++ toString s.st_mtime_ns ++ ":" ++ toString s.st_size
  | none => p ++ ":missing"

/-- A parsed usage-cache file, after the `or`-defaults have been applied. -/
structure CacheEntry where
  fetched_at : Int
  paths : List String
  url : String
  auth_fingerprints : List String
  results : List (String × UsageResult)
deriving DecidableEq, Repr

/-- The read-through cache check in `codex_accounts_usage.fetch_usage_bulk`:
requires `cache_ttl_sec > 0`, a readable entry, elapsed time at most the TTL,
and equality of paths, url, and fingerprints. -/
def cacheLookup (cache_ttl_sec now : Int) (cached : Option CacheEntry)
    (paths : List String) (url : String) (fps : List String) :
    Option (List (String × UsageResult)) :=
  if 0 < cache_ttl_sec then
    match cached with
    | none => none
    | some e =>
      if now - e.fetched_at ≤ cache_ttl_sec ∧ e.paths = paths ∧ e.url = url ∧
          e.auth_fingerprints = fps then
        some e.results
      else none
  else none

/-- The read-through cache check in `codex_accounts.fetch_usage_bulk`: same,
but the entry stores no fingerprints and none are compared. -/
def cacheLookupLegacy (cache_ttl_sec now : Int) (cached : Option CacheEntry)
    (paths : List String) (url : String) :
    Option (List (String × UsageResult)) :=
  if 0 < cache_ttl_sec then
    match cached with
    | none => none
    | some e =>
      if now - e.fetched_at ≤ cache_ttl_sec ∧ e.paths = paths ∧ e.url = url then
        some e.results
      else none
  else none

/-- Environment of one bulk-fetch call: the path list, the resolved endpoint
URL, the wall clock, each path's `stat()` outcome, the parsed cache-file
content, and the per-path result a fresh `fetch_usage_for_auth` call would
produce. -/
structure BulkInput where
  auth_files : List String
  url : String
  now : Int
  stat : String → Option Stat
  cached : Option CacheEntry
  fetch : String → UsageResult

/-- Current fingerprints of the requested files, in order. -/
def bulkFingerprints (inp : BulkInput) : List String :=
  inp.auth_files.map (fun p => fingerprint p (inp.stat p))

/-- Fresh fetch results, keyed by path (the thread pool writes one entry per
submitted path; completion order only permutes dict insertion order, which
consumers never observe since they look up by key). -/
def freshResults (inp : BulkInput) : List (String × UsageResult) :=
  inp.auth_files.map (fun p => (p, inp.fetch p))

/-- `fetch_usage_bulk` from `codex_accounts_usage.py` (cache write-back has
no observable effect on the returned value and is omitted). -/
def fetch_usage_bulk (cache_ttl_sec : Int) (inp : BulkInput) :
    List (String × UsageResult) :=
  if inp.auth_files = [] then []
  else
    match cacheLookup cache_ttl_sec inp.now inp.cached inp.auth_files inp.url
        (bulkFingerprints inp) with
    | some r => r
    | none => freshResults inp

/-- `fetch_usage_bulk` from `codex_accounts.py`. -/
def fetch_usage_bulk_legacy (cache_ttl_sec : Int) (inp : BulkInput) :
    List (String × UsageResult) :=
  if inp.auth_files = [] then []
  else
    match cacheLookupLegacy cache_ttl_sec inp.now inp.cached inp.auth_files inp.url with
    | some r => r
    | none => freshResults inp

/-- Counterexample to claim C1 as stated, for the `codex_accounts.py`
implementation of the bulk fetch operation: the credential file was modified
after the cache entry was written (its current fingerprint `"p:2:3"` differs
from the recorded `"p:0:0"`), yet within the TTL the legacy variant still
returns the cached results, while the `codex_accounts_usage.py` variant
refetches.  So "cached results are returned only if every fingerprint
matches" fails for `codex_accounts.fetch_usage_bulk`. -/
theorem claim_C1_counterexample :
    bulkFingerprints
        ⟨["p"], "u", 5, fun _ => some ⟨2, 3⟩,
          some ⟨0, ["p"], "u", ["p:0:0"], [("p", .failure "cached" none)]⟩,
          fun _ => .failure "fresh" none⟩ = ["p:2:3"] ∧
    (some ⟨0, ["p"], "u", ["p:0:0"], [("p", .failure "cached" none)]⟩ :
        Option CacheEntry).map CacheEntry.auth_fingerprints = some ["p:0:0"] ∧
    fetch_usage_bulk_legacy 20
        ⟨["p"], "u", 5, fun _ => some ⟨2, 3⟩,
          some ⟨0, ["p"], "u", ["p:0:0"], [("p", .failure "cached" none)]⟩,
          fun _ => .failure "fresh" none⟩ = [("p", .failure "cached" none)] ∧
    fetch_usage_bulk 20
        ⟨["p"], "u", 5, fun _ => some ⟨2, 3⟩,
          some ⟨0, ["p"], "u", ["p:0:0"], [("p", .failure "cached" none)]⟩,
          fun _ => .failure "fresh" none⟩ = [("p", .failure "fresh" none)] ∧
    UsageResult.failure "cached" (none : Option Bool) ≠ .failure "fresh" none := by
  refine ⟨rfl, rfl, rfl, rfl, by decide⟩

/-- Claim C1 as amended, proved for `codex_accounts_usage.fetch_usage_bulk`:
given a readable cache entry and a non-empty path list, the cached results
are returned if and only if the TTL is positive, the elapsed time since
`fetched_at` is at most the TTL, and the stored paths, URL, and per-file
fingerprints all equal the current request's values; on any mismatch the
fresh per-path results are returned instead (no partial reuse). -/
theorem claim_C1_cache_validation_amended (cache_ttl_sec : Int) (inp : BulkInput)
    (e : CacheEntry) (hc : inp.cached = some e) (hne : inp.auth_files ≠ []) :
    ((cacheLookup cache_ttl_sec inp.now inp.cached inp.auth_files inp.url
        (bulkFingerprints inp)).isSome ↔
      (0 < cache_ttl_sec ∧ inp.now - e.fetched_at ≤ cache_ttl_sec ∧
        e.paths = inp.auth_files ∧ e.url = inp.url ∧
        e.auth_fingerprints = bulkFingerprints inp)) ∧
    ((0 < cache_ttl_sec ∧ inp.now - e.fetched_at ≤ cache_ttl_sec ∧
        e.paths = inp.auth_files ∧ e.url = inp.url ∧
        e.auth_fingerprints = bulkFingerprints inp) →
      fetch_usage_bulk cache_ttl_sec inp = e.results) ∧
    (¬ (0 < cache_ttl_sec ∧ inp.now - e.fetched_at ≤ cache_ttl_sec ∧
        e.paths = inp.auth_files ∧ e.url = inp.url ∧
        e.auth_fingerprints = bulkFingerprints inp) →
      fetch_usage_bulk cache_ttl_sec inp = freshResults inp) := by
  have hlook : ∀ hcond : (0 < cache_ttl_sec ∧ inp.now - e.fetched_at ≤ cache_ttl_sec ∧
      e.paths = inp.auth_files ∧ e.url = inp.url ∧
      e.auth_fingerprints = bulkFingerprints inp),
      cacheLookup cache_ttl_sec inp.now inp.cached inp.auth_files inp.url
        (bulkFingerprints inp) = some e.results := by
    intro hcond
    unfold cacheLookup
    rw [hc]
    simp only [if_pos hcond.1]
    rw [if_pos ⟨hcond.2.1, hcond.2.2.1, hcond.2.2.2.1, hcond.2.2.2.2⟩]
  have hmiss : ¬ (0 < cache_ttl_sec ∧ inp.now - e.fetched_at ≤ cache_ttl_sec ∧
      e.paths = inp.auth_files ∧ e.url = inp.url ∧
      e.auth_fingerprints = bulkFingerprints inp) →
      cacheLookup cache_ttl_sec inp.now inp.cached inp.auth_files inp.url
        (bulkFingerprints inp) = none := by
    intro hcond
    unfold cacheLookup
    rw [hc]
    by_cases h₁ : 0 < cache_ttl_sec
    · simp only [if_pos h₁]
      rw [if_neg]
      intro hrest
      exact hcond ⟨h₁, hrest⟩
    · simp only [if_neg h₁]
  refine ⟨?_, ?_, ?_⟩
  · constructor
    · intro hsome
      by_contra hcond
      rw [hmiss hcond] at hsome
      exact absurd hsome (by simp)
    · intro hcond
      rw [hlook hcond]
      rfl
  · intro hcond
    unfold fetch_usage_bulk
    rw [if_neg hne, hlook hcond]
  · intro hcond
    unfold fetch_usage_bulk
    rw [if_neg hne, hmiss hcond]

/-- Witness for the amended C1: a matching entry within TTL is returned. -/
theorem claim_C1_witness :
    fetch_usage_bulk 20
      ⟨["p"], "u", 5, fun _ => some ⟨2, 3⟩,
        some ⟨0, ["p"], "u", ["p:2:3"], [("p", .failure "cached" none)]⟩,
        fun _ => .failure "fresh" none⟩ =
      (CacheEntry.mk 0 ["p"] "u" ["p:2:3"] [("p", .failure "cached" none)]).results :=
  (claim_C1_cache_validation_amended 20
      ⟨["p"], "u", 5, fun _ => some ⟨2, 3⟩,
        some ⟨0, ["p"], "u", ["p:2:3"], [("p", .failure "cached" none)]⟩,
        fun _ => .failure "fresh" none⟩
      (CacheEntry.mk 0 ["p"] "u" ["p:2:3"] [("p", .failure "cached" none)])
      rfl (by simp)).2.1
    ⟨by norm_num, by norm_num, rfl, rfl, rfl⟩

/-! ### C7: heuristic loading

`load_heuristic` also exists twice.  The variant in `codex_accounts.py`
wraps the configured-override load in a try block whose handler calls
`die(...)` (raising `SystemExit`, modelled as `aborted`), and wraps the
default-module load in a second try block whose handler notes the failure
and returns the built-in `_default_choose_account`.  The variant in
`codex_accounts_heuristic_loader.py` has no try blocks at all: any load
failure propagates as an exception (modelled as `raised`), and the provided
`default_func` is only used when the default module file does not exist.
The file-versus-module dispatch inside the env-spec branch is irrelevant to
the claim and is collapsed into one load outcome. -/

inductive LoadOutcome where
  | success
  | failure
deriving DecidableEq, Repr

/-- Which heuristic the loader produced. -/
inductive HeuristicSource where
  | custom
  | defaultModule
  | builtin
deriving DecidableEq, Repr

/-- Observable result of a `load_heuristic` call. -/
inductive LoadResult where
  | loaded (h : HeuristicSource)
  | aborted
  | raised
deriving DecidableEq, Repr

/-- Environment of one loader call: the (stripped) `CODEX_ACCOUNTS_HEURISTIC`
spec, the outcome of loading its target when attempted, whether the default
heuristic module file exists, and the outcome of loading it when attempted. -/
structure LoadEnv where
  env_spec : String
  specLoad : LoadOutcome
  defaultPathExists : Bool
  defaultLoad : LoadOutcome
deriving DecidableEq, Repr

/-- `load_heuristic` from `codex_accounts.py`. -/
def load_heuristic (env : LoadEnv) : LoadResult :=
  if env.env_spec ≠ "" then
    match env.specLoad with
    | .success => .loaded .custom
    | .failure => .aborted
  else
    if env.defaultPathExists then
      match env.defaultLoad with
      | .success => .loaded .defaultModule
      | .failure => .loaded .builtin
    else
      .loaded .builtin

/-- `load_heuristic` from `codex_accounts_heuristic_loader.py`. -/
def load_heuristic_loader (env : LoadEnv) : LoadResult :=
  if env.env_spec ≠ "" then
    match env.specLoad with
    | .success => .loaded .custom
    | .failure => .raised
  else
    if env.defaultPathExists then
      match env.defaultLoad with
      | .success => .loaded .defaultModule
      | .failure => .raised
    else
      .loaded .builtin

/-- Counterexample to claim C7 as stated, for
`codex_accounts_heuristic_loader.load_heuristic`: with no override configured
and an existing default module whose load fails, the loader propagates the
exception instead of falling back to the built-in algorithm. -/
theorem claim_C7_counterexample :
    load_heuristic_loader ⟨"", .success, true, .failure⟩ = .raised ∧
    load_heuristic_loader ⟨"", .success, true, .failure⟩ ≠ .loaded .builtin := by
  exact ⟨rfl, by decide⟩

/-- Claim C7 as amended: a failing explicitly configured override always
aborts the operation (`die` in `codex_accounts.py`, a propagated exception in
the loader module) and never silently falls back; a load failure of the
unconfigured default module falls back to the built-in algorithm in
`codex_accounts.load_heuristic`, whereas
`codex_accounts_heuristic_loader.load_heuristic` propagates it and only falls
back to the provided default when the module file does not exist. -/
theorem claim_C7_loader_amended (env : LoadEnv) :
    (env.env_spec ≠ "" → env.specLoad = .failure →
      load_heuristic env = .aborted ∧ load_heuristic_loader env = .raised) ∧
    (env.env_spec ≠ "" → env.specLoad = .failure →
      ∀ h, load_heuristic env ≠ .loaded h ∧ load_heuristic_loader env ≠ .loaded h) ∧
    (env.env_spec = "" → env.defaultPathExists = true → env.defaultLoad = .failure →
      load_heuristic env = .loaded .builtin ∧ load_heuristic_loader env = .raised) ∧
    (env.env_spec = "" → env.defaultPathExists = false →
      load_heuristic env = .loaded .builtin ∧
      load_heuristic_loader env = .loaded .builtin) := by
  refine ⟨?_, ?_, ?_, ?_⟩
  · intro hs hf
    unfold load_heuristic load_heuristic_loader
    simp only [if_pos hs, hf]
    exact ⟨by trivial, by trivial⟩
  · intro hs hf h
    unfold load_heuristic load_heuristic_loader
    simp only [if_pos hs, hf]
    exact ⟨by simp, by simp⟩
  · intro hs hd hf
    have hs' : ¬ (env.env_spec ≠ "") := by simpa using hs
    unfold load_heuristic load_heuristic_loader
    simp only [if_neg hs', hd, hf]
    exact ⟨by trivial, by trivial⟩
  · intro hs hd
    have hs' : ¬ (env.env_spec ≠ "") := by simpa using hs
    unfold load_heuristic load_heuristic_loader
    simp only [if_neg hs', hd]
    exact ⟨by trivial, by trivial⟩

/-- Witness for the amended C7. -/
theorem claim_C7_witness :
    load_heuristic ⟨"mymod:pick", .failure, true, .success⟩ = .aborted ∧
    load_heuristic_loader ⟨"mymod:pick", .failure, true, .success⟩ = .raised :=
  (claim_C7_loader_amended ⟨"mymod:pick", .failure, true, .success⟩).1 (by decide) rfl

/-! ### C8: state-file save/load round-trip

`save_state` writes `CURRENT={shlex.quote(cur)}\nPREVIOUS={shlex.quote(prev)}\n`;
`load_state` splits the file into lines, splits each line at the first `=`,
and decodes the value with `_decode_shell_value`, which strips the raw value,
runs `shlex.split(raw, posix=True)` taking the first token, and on a split
error falls back to stripping one layer of matching outer quotes.  Strings
are modelled as `List Char`; the file-lock plumbing has no effect on the
returned value and is omitted. -/

/-- Characters in `shlex.quote`'s safe set: the ASCII word characters
(letters, digits, underscore) and `@ % + = : , . / -` (the complement of the
class searched by `_find_unsafe`). -/
def isSafeChar (c : Char) : Bool :=
  (decide ('a' ≤ c) && decide (c ≤ 'z')) ||
  (decide ('A' ≤ c) && decide (c ≤ 'Z')) ||
  (decide ('0' ≤ c) && decide (c ≤ '9')) ||
  c == '_' || c == '@' || c == '%' || c == '+' || c == '=' || c == ':' ||
  c == ',' || c == '.' || c == '/' || c == '-'

/-- The `'` → `'"'"'` replacement `shlex.quote` applies inside its outer
single quotes. -/
def escQuoteChar (c : Char) : List Char :=
  if c = '\'' then ['\'', '"', '\'', '"', '\''] else [c]

/-- `shlex.quote(s)`: `''` for the empty string, `s` unchanged when every
character is safe, otherwise `'` + `s.replace("'", "'\"'\"'")` + `'`. -/
def shlex_quote (s : List Char) : List Char :=
  if s = [] then ['\'', '\'']
  else if s.all isSafeChar then s
  else '\'' :: (s.flatMap escQuoteChar ++ ['\''])

/-- `shlex.whitespace` (token separators). -/
def isShlexWs (c : Char) : Bool :=
  c == ' ' || c == '\t' || c == '\r' || c == '\n'

inductive LexMode where
  | norm
  | single
  | double
deriving DecidableEq, Repr

/-- Tokenizer of `shlex.split(s, posix=True)` (whitespace splitting, no
comment processing since `split` passes `comments=False`): single quotes
quote everything up to the closing quote; double quotes let `\` escape `\`
and `"` (keeping the backslash otherwise); outside quotes `\` escapes the
next character; an unterminated quote or trailing escape raises
(`none`). `cur = none` means no token has started; tokens and the current
token are accumulated in reverse. -/
def lexAux : List Char → LexMode → Option (List Char) → List (List Char) →
    Option (List (List Char))
  | [], .norm, none, toks => some toks.reverse
  | [], .norm, some t, toks => some ((t.reverse :: toks).reverse)
  | [], .single, _, _ => none
  | [], .double, _, _ => none
  | c :: rest, .norm, cur, toks =>
    if isShlexWs c then
      match cur with
      | none => lexAux rest .norm none toks
      | some t => lexAux rest .norm none (t.reverse :: toks)
    else if c = '\'' then lexAux rest .single (some (cur.getD [])) toks
    else if c = '"' then lexAux rest .double (some (cur.getD [])) toks
    else if c = '\\' then
      match rest with
      | [] => none
      | d :: rest2 => lexAux rest2 .norm (some (d :: cur.getD [])) toks
    else lexAux rest .norm (some (c :: cur.getD [])) toks
  | c :: rest, .single, cur, toks =>
    if c = '\'' then lexAux rest .norm (some (cur.getD [])) toks
    else lexAux rest .single (some (c :: cur.getD [])) toks
  | c :: rest, .double, cur, toks =>
    if c = '"' then lexAux rest .norm (some (cur.getD [])) toks
    else if c = '\\' then
      match rest with
      | [] => none
      | d :: rest2 =>
        if d = '"' ∨ d = '\\' then lexAux rest2 .double (some (d :: cur.getD [])) toks
        else lexAux rest2 .double (some (d :: '\\' :: cur.getD [])) toks
    else lexAux rest .double (some (c :: cur.getD [])) toks

/-- `shlex.split(s, posix=True)`. -/
def shlexSplit (s : List Char) : Option (List (List Char)) :=
  lexAux s .norm none []

/-- Whitespace stripped by Python's `str.strip()`. -/
def isPySpace (c : Char) : Bool :=
  c == ' ' || c == '\t' || c == '\n' || c == '\r' || c == '\x0b' || c == '\x0c' ||
  c == '\x1c' || c == '\x1d' || c == '\x1e' || c == '\x1f' || c == '\x85' ||
  c == '\u00A0' || c == '\u1680' ||
  (decide ('\u2000' ≤ c) && decide (c ≤ '\u200A')) ||
  c == '\u2028' || c == '\u2029' || c == '\u202F' || c == '\u205F' || c == '\u3000'

/-- Python `str.strip()`. -/
def pyStrip (s : List Char) : List Char :=
  ((s.dropWhile isPySpace).reverse.dropWhile isPySpace).reverse

/-- `_decode_shell_value(raw)` from `codex_accounts_state.py` (the function
reassigns `raw = raw.strip()` up front; `pyStrip raw` here always denotes the
stripped value).  A successful `shlex.split` with a non-empty token list
yields the first token; otherwise one layer of matching outer quotes is
removed when present. -/
def _decode_shell_value (raw : List Char) : List Char :=
  if pyStrip raw = [] then []
  else
    match shlexSplit (pyStrip raw) with
    | some (p :: _) => p
    | _ =>
      if 2 ≤ (pyStrip raw).length ∧ (pyStrip raw).head? = (pyStrip raw).getLast? ∧
          ((pyStrip raw).head? = some '"' ∨ (pyStrip raw).head? = some '\'') then
        ((pyStrip raw).drop 1).dropLast
      else pyStrip raw

/-- Line boundaries recognized by Python's `str.splitlines()`. -/
def isLineBreak (c : Char) : Bool :=
  c == '\n' || c == '\r' || c == '\x0b' || c == '\x0c' || c == '\x1c' ||
  c == '\x1d' || c == '\x1e' || c == '\x85' || c == '\u2028' || c == '\u2029'

/-- Core of `str.splitlines()`: a line ends at any line-break character,
`\r\n` counts as a single boundary, and a trailing boundary does not produce
an empty final line. -/
def splitlinesAux : List Char → List Char → List (List Char)
  | [], acc => if acc = [] then [] else [acc.reverse]
  | [c], acc =>
    if isLineBreak c then [acc.reverse]
    else [(c :: acc).reverse]
  | c :: d :: rest, acc =>
    if isLineBreak c then
      if c = '\r' ∧ d = '\n' then acc.reverse :: splitlinesAux rest []
      else acc.reverse :: splitlinesAux (d :: rest) []
    else splitlinesAux (d :: rest) (c :: acc)

def splitlines (s : List Char) : List (List Char) :=
  splitlinesAux s []

def keyCURRENT : List Char := ['C', 'U', 'R', 'R', 'E', 'N', 'T']

def keyPREVIOUS : List Char := ['P', 'R', 'E', 'V', 'I', 'O', 'U', 'S']

/-- The file content written by `save_state(cur, prev)`:
`f"CURRENT={shlex.quote(cur)}\nPREVIOUS={shlex.quote(prev)}\n"`. -/
def save_state_content (cur prev : List Char) : List Char :=
  keyCURRENT ++ '=' :: shlex_quote cur ++ '\n' ::
    (keyPREVIOUS ++ '=' :: shlex_quote prev ++ ['\n'])

/-- One line of `load_state`'s loop: skip lines without `=`, split at the
first `=`, strip the key, and decode the value into the matching slot. -/
def processLine (st : List Char × List Char) (line : List Char) :
    List Char × List Char :=
  if '=' ∈ line then
    let key := pyStrip (line.takeWhile (fun c => c != '='))
    let value := (line.dropWhile (fun c => c != '=')).drop 1
    if key = keyCURRENT then (_decode_shell_value value, st.2)
    else if key = keyPREVIOUS then (st.1, _decode_shell_value value)
    else st
  else st

/-- `load_state` applied to file content (missing file and read errors yield
the initial empty pair in the code; here the content is given). -/
def load_state (content : List Char) : List Char × List Char :=
  (splitlines content).foldl processLine ([], [])

theorem isSafeChar_not_unicode_space {c : Char} (h : isSafeChar c = true) :
    ¬ ('\u2000' ≤ c) := by
  intro hge
  have hfalse : isSafeChar c = false := by
    simp only [isSafeChar, Bool.or_eq_false_iff, Bool.and_eq_false_iff,
      decide_eq_false_iff_not, beq_eq_false_iff_ne, ne_eq]
    repeat' apply And.intro
    all_goals first
      | (intro heq; subst heq; revert hge; decide)
      | (right; intro hle; have h2 := le_trans hge hle; revert h2; decide)
  rw [hfalse] at h
  exact absurd h (by decide)

/-- Every character in `shlex.quote`'s safe set is an ordinary character for
the tokenizer (not whitespace, not a quote, not an escape), is not stripped
by `str.strip()`, and is not a line boundary. -/
theorem isSafeChar_props {c : Char} (h : isSafeChar c = true) :
    isShlexWs c = false ∧ c ≠ '\'' ∧ c ≠ '"' ∧ c ≠ '\\' ∧
    isPySpace c = false ∧ isLineBreak c = false := by
  refine ⟨?_, ?_, ?_, ?_, ?_, ?_⟩
  · simp only [isShlexWs, Bool.or_eq_false_iff, beq_eq_false_iff_ne, ne_eq]
    repeat' apply And.intro
    all_goals (intro heq; subst heq; revert h; decide)
  · intro heq; rw [heq] at h; revert h; decide
  · intro heq; rw [heq] at h; revert h; decide
  · intro heq; rw [heq] at h; revert h; decide
  · simp only [isPySpace, Bool.or_eq_false_iff, Bool.and_eq_false_iff,
      decide_eq_false_iff_not, beq_eq_false_iff_ne, ne_eq]
    repeat' apply And.intro
    all_goals first
      | (intro heq; subst heq; revert h; decide)
      | (left; exact isSafeChar_not_unicode_space h)
  · simp only [isLineBreak, Bool.or_eq_false_iff, beq_eq_false_iff_ne, ne_eq]
    repeat' apply And.intro
    all_goals (intro heq; subst heq; revert h; decide)

theorem lex_nil_tok (t : List Char) (toks : List (List Char)) :
    lexAux [] .norm (some t) toks = some ((t.reverse :: toks).reverse) := rfl

theorem lex_norm_ord {c : Char} (hws : isShlexWs c = false) (hq : c ≠ '\'')
    (hd : c ≠ '"') (hb : c ≠ '\\') (l : List Char) (cur : Option (List Char))
    (toks : List (List Char)) :
    lexAux (c :: l) .norm cur toks = lexAux l .norm (some (c :: cur.getD [])) toks := by
  rw [lexAux.eq_def]
  dsimp only
  rw [hws]
  simp [hq, hd, hb]

theorem lex_norm_squote (l : List Char) (cur : Option (List Char))
    (toks : List (List Char)) :
    lexAux ('\'' :: l) .norm cur toks = lexAux l .single (some (cur.getD [])) toks := by
  rw [lexAux.eq_def]
  dsimp only
  simp [isShlexWs]

theorem lex_norm_dquote (l : List Char) (cur : Option (List Char))
    (toks : List (List Char)) :
    lexAux ('"' :: l) .norm cur toks = lexAux l .double (some (cur.getD [])) toks := by
  rw [lexAux.eq_def]
  dsimp only
  simp [isShlexWs]

theorem lex_single_exit (l : List Char) (cur : Option (List Char))
    (toks : List (List Char)) :
    lexAux ('\'' :: l) .single cur toks = lexAux l .norm (some (cur.getD [])) toks := by
  rw [lexAux.eq_def]
  dsimp only
  simp

theorem lex_single_ord {c : Char} (hq : c ≠ '\'') (l : List Char)
    (cur : Option (List Char)) (toks : List (List Char)) :
    lexAux (c :: l) .single cur toks = lexAux l .single (some (c :: cur.getD [])) toks := by
  rw [lexAux.eq_def]
  dsimp only
  simp [hq]

theorem lex_double_exit (l : List Char) (cur : Option (List Char))
    (toks : List (List Char)) :
    lexAux ('"' :: l) .double cur toks = lexAux l .norm (some (cur.getD [])) toks := by
  rw [lexAux.eq_def]
  dsimp only
  simp

theorem lex_double_ord {c : Char} (hd : c ≠ '"') (hb : c ≠ '\\') (l : List Char)
    (cur : Option (List Char)) (toks : List (List Char)) :
    lexAux (c :: l) .double cur toks = lexAux l .double (some (c :: cur.getD [])) toks := by
  rw [lexAux.eq_def]
  dsimp only
  simp [hd, hb]

/-- A run of ordinary characters extends the current token. -/
theorem lexAux_ordinary (s : List Char)
    (h : ∀ c ∈ s, isShlexWs c = false ∧ c ≠ '\'' ∧ c ≠ '"' ∧ c ≠ '\\') :
    ∀ (acc : List Char) (toks : List (List Char)),
      lexAux s .norm (some acc) toks =
        some (((s.reverse ++ acc).reverse :: toks).reverse) := by
  induction s with
  | nil => intro acc toks; rw [lex_nil_tok]; simp
  | cons c s ih =>
    intro acc toks
    obtain ⟨hws, hq, hd, hb⟩ := h c (by simp)
    rw [lex_norm_ord hws hq hd hb]
    simp only [Option.getD_some]
    rw [ih (fun x hx => h x (by simp [hx]))]
    simp

/-- Inside single quotes, the quote-escaped body of `s` followed by the
closing quote appends exactly `s` to the current token and returns to
normal mode. -/
theorem lexAux_esc_single (s : List Char) :
    ∀ (acc : List Char) (toks : List (List Char)) (rest : List Char),
      lexAux (s.flatMap escQuoteChar ++ '\'' :: rest) .single (some acc) toks =
        lexAux rest .norm (some (s.reverse ++ acc)) toks := by
  induction s with
  | nil =>
    intro acc toks rest
    simp only [List.flatMap_nil, List.nil_append, List.reverse_nil]
    rw [lex_single_exit]
    simp
  | cons c s ih =>
    intro acc toks rest
    by_cases hc : c = '\''
    · subst hc
      rw [show ('\'' :: s).flatMap escQuoteChar ++ '\'' :: rest =
          '\'' :: '"' :: '\'' :: '"' :: '\'' ::
            (s.flatMap escQuoteChar ++ '\'' :: rest) by
        simp [escQuoteChar]]
      rw [lex_single_exit]
      simp only [Option.getD_some]
      rw [lex_norm_dquote]
      simp only [Option.getD_some]
      rw [lex_double_ord (by decide) (by decide)]
      simp only [Option.getD_some]
      rw [lex_double_exit]
      simp only [Option.getD_some]
      rw [lex_norm_squote]
      simp only [Option.getD_some]
      rw [ih]
      simp
    · rw [show (c :: s).flatMap escQuoteChar ++ '\'' :: rest =
          c :: (s.flatMap escQuoteChar ++ '\'' :: rest) by
        simp [escQuoteChar, hc]]
      rw [lex_single_ord hc]
      simp only [Option.getD_some]
      rw [ih]
      simp

/-- `shlex.split` inverts `shlex.quote`: the quoted form of any string lexes
to exactly that one token. -/
theorem shlexSplit_quote (s : List Char) : shlexSplit (shlex_quote s) = some [s] := by
  by_cases hnil : s = []
  · subst hnil; rfl
  · by_cases hsafe : s.all isSafeChar
    · have hqs : shlex_quote s = s := by
        unfold shlex_quote; rw [if_neg hnil, if_pos hsafe]
      rw [hqs]
      have hprops : ∀ x ∈ s, isShlexWs x = false ∧ x ≠ '\'' ∧ x ≠ '"' ∧ x ≠ '\\' := by
        intro x hx
        obtain ⟨h1, h2, h3, h4, _, _⟩ :=
          isSafeChar_props (List.all_eq_true.mp hsafe x hx)
        exact ⟨h1, h2, h3, h4⟩
      obtain ⟨c, t, rfl⟩ : ∃ c t, s = c :: t := by
        cases s with
        | nil => exact absurd rfl hnil
        | cons c t => exact ⟨c, t, rfl⟩
      obtain ⟨hws, hq, hd, hb⟩ := hprops c (by simp)
      unfold shlexSplit
      rw [lex_norm_ord hws hq hd hb]
      simp only [Option.getD_none]
      rw [lexAux_ordinary t (fun x hx => hprops x (by simp [hx]))]
      simp
    · have hqs : shlex_quote s = '\'' :: (s.flatMap escQuoteChar ++ ['\'']) := by
        unfold shlex_quote; rw [if_neg hnil, if_neg hsafe]
      rw [hqs]
      unfold shlexSplit
      rw [lex_norm_squote]
      simp only [Option.getD_none]
      rw [show s.flatMap escQuoteChar ++ ['\''] =
          s.flatMap escQuoteChar ++ '\'' :: [] from rfl]
      rw [lexAux_esc_single s [] [] []]
      rw [lex_nil_tok]
      simp

/-- `str.strip()` is the identity on a string whose first and last characters
are not whitespace. -/
theorem pyStrip_eq_self {s : List Char}
    (hh : ∀ c, s.head? = some c → isPySpace c = false)
    (hl : ∀ c, s.getLast? = some c → isPySpace c = false) :
    pyStrip s = s := by
  unfold pyStrip
  have h1 : s.dropWhile isPySpace = s := by
    cases s with
    | nil => rfl
    | cons c t =>
      rw [List.dropWhile_cons, hh c rfl]
      simp
  rw [h1]
  have h2 : s.reverse.dropWhile isPySpace = s.reverse := by
    cases hs : s.reverse with
    | nil => rfl
    | cons c t =>
      have hc : s.getLast? = some c := by
        rw [← List.head?_reverse, hs]
        rfl
      rw [List.dropWhile_cons, hl c hc]
      simp
  rw [h2, List.reverse_reverse]

/-- `_decode_shell_value` inverts `shlex.quote` on any intact value. -/
theorem decode_quote (s : List Char) : _decode_shell_value (shlex_quote s) = s := by
  by_cases hnil : s = []
  · subst hnil
    decide
  · have hsplit := shlexSplit_quote s
    by_cases hsafe : s.all isSafeChar
    · have hqs : shlex_quote s = s := by
        unfold shlex_quote; rw [if_neg hnil, if_pos hsafe]
      rw [hqs] at hsplit ⊢
      have hstrip : pyStrip s = s := by
        apply pyStrip_eq_self
        · intro c hc
          have hmem : c ∈ s := by
            cases s with
            | nil => simp at hc
            | cons x t => simp at hc; simp [hc]
          exact (isSafeChar_props (List.all_eq_true.mp hsafe c hmem)).2.2.2.2.1
        · intro c hc
          have h0 : s.reverse.head? = some c := by rw [List.head?_reverse]; exact hc
          have hmem : c ∈ s := by
            have h1 : c ∈ s.reverse := List.mem_of_mem_head? (by simp [h0, Option.mem_def])
            simpa using h1
          exact (isSafeChar_props (List.all_eq_true.mp hsafe c hmem)).2.2.2.2.1
      unfold _decode_shell_value
      rw [hstrip, if_neg hnil, hsplit]
    · have hqs : shlex_quote s = '\'' :: (s.flatMap escQuoteChar ++ ['\'']) := by
        unfold shlex_quote; rw [if_neg hnil, if_neg hsafe]
      rw [hqs] at hsplit ⊢
      have hne : '\'' :: (s.flatMap escQuoteChar ++ ['\'']) ≠ [] := by simp
      have hstrip : pyStrip ('\'' :: (s.flatMap escQuoteChar ++ ['\''])) =
          '\'' :: (s.flatMap escQuoteChar ++ ['\'']) := by
        apply pyStrip_eq_self
        · intro c hc
          have heq : '\'' = c := by simpa using hc
          subst heq
          decide
        · intro c hc
          rw [← List.head?_reverse] at hc
          rw [show ('\'' :: (s.flatMap escQuoteChar ++ ['\''])).reverse =
              '\'' :: ((s.flatMap escQuoteChar).reverse ++ ['\'']) by simp] at hc
          have heq : '\'' = c := by simpa using hc
          subst heq
          decide
      unfold _decode_shell_value
      rw [hstrip, if_neg hne, hsplit]

/-- A non-break character extends the current line. -/
theorem splitlinesAux_cons_nb {c : Char} (hc : isLineBreak c = false)
    (l acc : List Char) :
    splitlinesAux (c :: l) acc = splitlinesAux l (c :: acc) := by
  cases l with
  | nil => simp [splitlinesAux, hc]
  | cons d rest => simp [splitlinesAux, hc]

/-- A newline terminates the current line. -/
theorem splitlinesAux_cons_nl (l acc : List Char) :
    splitlinesAux ('\n' :: l) acc = acc.reverse :: splitlinesAux l [] := by
  have hnr : ('\n' : Char) ≠ '\r' := by decide
  cases l with
  | nil => simp [splitlinesAux, isLineBreak]
  | cons d rest => simp [splitlinesAux, isLineBreak, hnr]

/-- Splitting off one newline-terminated, break-free line. -/
theorem splitlinesAux_line (a : List Char) (h : ∀ c ∈ a, isLineBreak c = false) :
    ∀ (rest acc : List Char),
      splitlinesAux (a ++ '\n' :: rest) acc =
        (acc.reverse ++ a) :: splitlinesAux rest [] := by
  induction a with
  | nil =>
    intro rest acc
    simpa using splitlinesAux_cons_nl rest acc
  | cons c a ih =>
    intro rest acc
    rw [List.cons_append, splitlinesAux_cons_nb (h c (by simp)),
      ih (fun x hx => h x (by simp [hx]))]
    simp

/-- Splitting a line of the form `key ++ '=' :: value` at the first `=`. -/
theorem takeWhile_key (k v : List Char) (hk : ∀ x ∈ k, x ≠ '=') :
    (k ++ '=' :: v).takeWhile (fun c => c != '=') = k ∧
    (k ++ '=' :: v).dropWhile (fun c => c != '=') = '=' :: v := by
  induction k with
  | nil => constructor <;> simp [List.takeWhile, List.dropWhile]
  | cons x k ih =>
    have hx : (x != '=') = true := by
      simpa using hk x (by simp)
    obtain ⟨ih1, ih2⟩ := ih (fun y hy => hk y (by simp [hy]))
    constructor
    · rw [List.cons_append, List.takeWhile_cons, hx]
      simp [ih1]
    · rw [List.cons_append, List.dropWhile_cons, hx]
      simp [ih2]

/-- Quoting introduces only quote characters, so a line-break-free value
stays line-break-free. -/
theorem shlex_quote_no_linebreak {s : List Char}
    (hs : ∀ c ∈ s, isLineBreak c = false) :
    ∀ c ∈ shlex_quote s, isLineBreak c = false := by
  intro c hcq
  unfold shlex_quote at hcq
  by_cases hnil : s = []
  · rw [if_pos hnil] at hcq
    have heq : c = '\'' := by
      rcases List.mem_cons.mp hcq with h | h
      · exact h
      · simpa using h
    subst heq
    decide
  · rw [if_neg hnil] at hcq
    by_cases hsafe : s.all isSafeChar
    · rw [if_pos hsafe] at hcq
      exact hs c hcq
    · rw [if_neg hsafe] at hcq
      rcases List.mem_cons.mp hcq with heq | hmem
      · subst heq; decide
      · rcases List.mem_append.mp hmem with hmem | hmem
        · obtain ⟨x, hx, hcx⟩ := List.mem_flatMap.mp hmem
          unfold escQuoteChar at hcx
          by_cases hxq : x = '\''
          · rw [if_pos hxq] at hcx
            have hcx' : c = '\'' ∨ c = '"' := by
              simp at hcx
              tauto
            rcases hcx' with heq | heq <;> (subst heq; decide)
          · rw [if_neg hxq] at hcx
            have heq : c = x := by simpa using hcx
            rw [heq]
            exact hs x hx
        · have heq : c = '\'' := by simpa using hmem
          subst heq
          decide

/-- Counterexample to claim C8 as stated: saving `cur = "a\nb"` (a value
containing a newline) and loading back yields `("'a", "")`, not the original
pair — the quoted value is split across lines by `splitlines`, the
unterminated quote makes `shlex.split` raise, and the fallback keeps the
truncated raw text. -/
theorem claim_C8_counterexample :
    load_state (save_state_content ['a', '\n', 'b'] []) = (['\'', 'a'], []) ∧
    load_state (save_state_content ['a', '\n', 'b'] []) ≠ (['a', '\n', 'b'], []) := by
  exact ⟨by decide, by decide⟩

/-- Claim C8 as amended: for every pair of strings containing no line-break
characters (the separators `str.splitlines` recognizes, such as `"\n"` and
`"\r"`), saving with `save_state` and loading with `load_state` returns
exactly the original pair: shell quoting round-trips through the decode
routine. -/
theorem claim_C8_round_trip_amended (cur prev : List Char)
    (hc : ∀ c ∈ cur, isLineBreak c = false)
    (hp : ∀ c ∈ prev, isLineBreak c = false) :
    load_state (save_state_content cur prev) = (cur, prev) := by
  have hqc := shlex_quote_no_linebreak hc
  have hqp := shlex_quote_no_linebreak hp
  have hkeyC : ∀ c ∈ keyCURRENT, isLineBreak c = false := by decide
  have hkeyP : ∀ c ∈ keyPREVIOUS, isLineBreak c = false := by decide
  have hA : ∀ c ∈ keyCURRENT ++ '=' :: shlex_quote cur, isLineBreak c = false := by
    intro c hm
    rcases List.mem_append.mp hm with hm | hm
    · exact hkeyC c hm
    · rcases List.mem_cons.mp hm with heq | hm
      · subst heq; decide
      · exact hqc c hm
  have hB : ∀ c ∈ keyPREVIOUS ++ '=' :: shlex_quote prev, isLineBreak c = false := by
    intro c hm
    rcases List.mem_append.mp hm with hm | hm
    · exact hkeyP c hm
    · rcases List.mem_cons.mp hm with heq | hm
      · subst heq; decide
      · exact hqp c hm
  have hlines : splitlines (save_state_content cur prev) =
      [keyCURRENT ++ '=' :: shlex_quote cur, keyPREVIOUS ++ '=' :: shlex_quote prev] := by
    unfold splitlines save_state_content
    rw [show keyCURRENT ++ '=' :: shlex_quote cur ++ '\n' ::
          (keyPREVIOUS ++ '=' :: shlex_quote prev ++ ['\n']) =
        (keyCURRENT ++ '=' :: shlex_quote cur) ++ '\n' ::
          ((keyPREVIOUS ++ '=' :: shlex_quote prev) ++ '\n' :: []) by simp]
    rw [splitlinesAux_line _ hA, splitlinesAux_line _ hB]
    rfl
  have hprocA : processLine ([], []) (keyCURRENT ++ '=' :: shlex_quote cur) = (cur, []) := by
    unfold processLine
    rw [if_pos (by exact List.mem_append.mpr (Or.inr (by simp)))]
    obtain ⟨ht, hd⟩ := takeWhile_key keyCURRENT (shlex_quote cur) (by decide)
    rw [ht, hd]
    rw [show pyStrip keyCURRENT = keyCURRENT by decide]
    rw [if_pos rfl]
    simp [decode_quote]
  have hprocB : processLine (cur, []) (keyPREVIOUS ++ '=' :: shlex_quote prev) =
      (cur, prev) := by
    unfold processLine
    rw [if_pos (by exact List.mem_append.mpr (Or.inr (by simp)))]
    obtain ⟨ht, hd⟩ := takeWhile_key keyPREVIOUS (shlex_quote prev) (by decide)
    rw [ht, hd]
    rw [show pyStrip keyPREVIOUS = keyPREVIOUS by decide]
    rw [if_neg (by decide)]
    rw [if_pos rfl]
    simp [decode_quote]
  unfold load_state
  rw [hlines]
  simp only [List.foldl_cons, List.foldl_nil]
  rw [hprocA, hprocB]

/-- Witness for the amended C8 on strings exercising quoting (apostrophe,
space, empty-vs-nonempty). -/
theorem claim_C8_witness :
    load_state (save_state_content ['i', 't', '\'', 's'] ['x', ' ', 'y']) =
      (['i', 't', '\'', 's'], ['x', ' ', 'y']) :=
  claim_C8_round_trip_amended ['i', 't', '\'', 's'] ['x', ' ', 'y']
    (by decide) (by decide)

end CodexSwitcher
